import Mathlib

/-!
# Econotag board support package: GPIO, exception masks and UART driver

Shallow embedding of `bsp/hal/excep.c`, `bsp/drivers/gpio.c` and
`bsp/drivers/uart.c`.  Machine words are natural numbers; every 32-bit
operation that can overflow is reduced modulo `2 ^ 32` explicitly.
Memory-mapped registers are fields of explicit state records, and every C
function becomes a function from the state before the call to its result
and the state after it.
-/

namespace Econotag

/-! ## 32-bit word helpers -/

/-- The C expression `x << n` on `uint32_t`.  C leaves a shift by 32 or more
undefined; the ARM barrel shifter produces 0 there, which is what is used. -/
def shl32 (x n : Nat) : Nat := if n < 32 then (x <<< n) % 2 ^ 32 else 0

/-- The C expression `~x` on `uint32_t`. -/
def not32 (x : Nat) : Nat := 0xFFFFFFFF ^^^ (x % 2 ^ 32)

/-- The C expression `a - b` on `uint32_t` (wraps around). -/
def sub32 (a b : Nat) : Nat := (a % 2 ^ 32 + 2 ^ 32 - b % 2 ^ 32) % 2 ^ 32

/-- Read of a C bit-field of `width` bits starting at bit `pos` of word `w`. -/
def get_field (w pos width : Nat) : Nat := w / 2 ^ pos % 2 ^ width

/-- Write of a C bit-field: the `width` bits at `pos` are replaced by the low
bits of `v`, every other bit of `w` is kept. -/
def set_field (w pos width v : Nat) : Nat :=
  w - get_field w pos width * 2 ^ pos + v % 2 ^ width * 2 ^ pos

/-! ## excep.c : CPU interrupt masks

The current program status register is a word; bit 7 is the IRQ mask `I`,
bit 6 the FIQ mask `F`, bits 4..0 the processor mode. -/

/-- The instruction `msr cpsr_c, r`: writes the control byte (bits 7..0) of the
status register.  As the comments of `excep.c` state, it has no effect in
User mode (mode field `0b10000`). -/
def msr_cpsr_c (cpsr r : Nat) : Nat :=
  if cpsr % 32 = 16 then cpsr else cpsr / 256 * 256 + r % 256

/-- The instruction `bic rd, rn, #imm` on 32-bit registers. -/
def bic32 (x imm : Nat) : Nat := x &&& (0xFFFFFFFF ^^^ imm)

/-- `excep_disable_ints`: returns the pair (returned value, new status register). -/
def excep_disable_ints (cpsr : Nat) : Nat × Nat :=
  let BitsDeEstado := cpsr
  let r12 := BitsDeEstado ||| 0xC0
  ((BitsDeEstado >>> 6) &&& 3, msr_cpsr_c cpsr r12)

/-- `excep_disable_irq`: returns the pair (returned value, new status register). -/
def excep_disable_irq (cpsr : Nat) : Nat × Nat :=
  let BitsDeEstado := cpsr
  let r12 := BitsDeEstado ||| 0x80
  ((BitsDeEstado >>> 7) &&& 1, msr_cpsr_c cpsr r12)

/-- `excep_disable_fiq`: returns the pair (returned value, new status register). -/
def excep_disable_fiq (cpsr : Nat) : Nat × Nat :=
  let BitsDeEstado := cpsr
  let r12 := BitsDeEstado ||| 0x40
  ((BitsDeEstado >>> 6) &&& 1, msr_cpsr_c cpsr r12)

/-- `excep_restore_ints`: the new status register. -/
def excep_restore_ints (cpsr if_bits : Nat) : Nat :=
  let b := if_bits &&& 3
  let r12 := cpsr
  let r12 := bic32 r12 0xC0
  let r12 := r12 ||| (b <<< 6) % 2 ^ 32
  msr_cpsr_c cpsr r12

/-- `excep_restore_irq`: the new status register.  The source clears bit 7
(`bic r12, r12, #0x80`) and then ors in `i_bit & 1` shifted left by 6. -/
def excep_restore_irq (cpsr i_bit : Nat) : Nat :=
  let b := i_bit &&& 1
  let r12 := cpsr
  let r12 := bic32 r12 0x80
  let r12 := r12 ||| (b <<< 6) % 2 ^ 32
  msr_cpsr_c cpsr r12

/-- `excep_restore_fiq`: the new status register. -/
def excep_restore_fiq (cpsr f_bit : Nat) : Nat :=
  let b := f_bit &&& 1
  let r12 := cpsr
  let r12 := bic32 r12 0x40
  let r12 := r12 ||| (b <<< 6) % 2 ^ 32
  msr_cpsr_c cpsr r12

/-- Mask bit `I` (bit 7) of a status register value. -/
def cpsr_I (cpsr : Nat) : Nat := cpsr / 128 % 2

/-- Mask bit `F` (bit 6) of a status register value. -/
def cpsr_F (cpsr : Nat) : Nat := cpsr / 64 % 2

/-! ## gpio.c : GPIO controller -/

/-- Modelled from the spec: the enumerators of `gpio_port_t`, `gpio_pin_t` and
`gpio_func_t` are declared in a header that is not part of the sources; the
spec fixes two ports, pins 0..63 and the four 2-bit function codes. -/
def gpio_port_0 : Nat := 0

/-- Modelled from the spec: second port, see `gpio_port_0`. -/
def gpio_port_1 : Nat := 1

/-- Modelled from the spec: first pin, see `gpio_port_0`. -/
def gpio_pin_0 : Nat := 0

/-- Modelled from the spec: pin 16, see `gpio_port_0`. -/
def gpio_pin_16 : Nat := 16

/-- Modelled from the spec: pin 32, see `gpio_port_0`. -/
def gpio_pin_32 : Nat := 32

/-- Modelled from the spec: pin 48, see `gpio_port_0`. -/
def gpio_pin_48 : Nat := 48

/-- Modelled from the spec: last pin, see `gpio_port_0`. -/
def gpio_pin_63 : Nat := 63

/-- Modelled from the spec: number of pins, see `gpio_port_0`. -/
def gpio_pin_max : Nat := 64

/-- Modelled from the spec: function code "normal", see `gpio_port_0`. -/
def gpio_func_normal : Nat := 0

/-- Modelled from the spec: function code "alternate 1", see `gpio_port_0`. -/
def gpio_func_alternate_1 : Nat := 1

/-- Modelled from the spec: function code "alternate 2", see `gpio_port_0`. -/
def gpio_func_alternate_2 : Nat := 2

/-- Modelled from the spec: function code "alternate 3", see `gpio_port_0`. -/
def gpio_func_alternate_3 : Nat := 3

/-- Modelled from the spec: the result type `gpio_err_t` is declared in a header
that is not part of the sources; `gpio.c` uses these two values. -/
inductive gpio_err_t where
  | gpio_no_error
  | gpio_invalid_parameter
  deriving DecidableEq, Repr

/-- The fields of `gpio_regs_t`, in the order of the C struct. -/
inductive GpioReg where
  | GPIO_PAD_DIR0 | GPIO_PAD_DIR1
  | GPIO_DATA0 | GPIO_DATA1
  | GPIO_PAD_PU_EN0 | GPIO_PAD_PU_EN1
  | GPIO_FUNC_SEL0 | GPIO_FUNC_SEL1 | GPIO_FUNC_SEL2 | GPIO_FUNC_SEL3
  | GPIO_DATA_SEL0 | GPIO_DATA_SEL1
  | GPIO_PAD_PU_SEL0 | GPIO_PAD_PU_SEL1
  | GPIO_PAD_HYST_EN0 | GPIO_PAD_HYST_EN1
  | GPIO_PAD_KEEP0 | GPIO_PAD_KEEP1
  | GPIO_DATA_SET0 | GPIO_DATA_SET1
  | GPIO_DATA_RESET0 | GPIO_DATA_RESET1
  | GPIO_PAD_DIR_SET0 | GPIO_PAD_DIR_SET1
  | GPIO_PAD_DIR_RESET0 | GPIO_PAD_DIR_RESET1
  deriving DecidableEq, Repr

/-- The GPIO register block: the value each register reads as, and the list of
stores the driver has issued to the block, oldest first. -/
structure Gpio where
  regs : GpioReg → Nat
  stores : List (GpioReg × Nat)

/-- Modelled from the spec: effect of a 32-bit store on the register block.  The
spec describes the `SET` / `RESET` registers as atomic set / reset pairs for
the data and direction registers: a store to a `SET` register sets the bits
of the mask in the paired register, a store to a `RESET` register clears
them.  Every other register keeps the stored word. -/
def gpio_hw_store (regs : GpioReg → Nat) (r : GpioReg) (v : Nat) : GpioReg → Nat :=
  match r with
  | .GPIO_DATA_SET0 =>
      Function.update regs .GPIO_DATA0 (regs .GPIO_DATA0 ||| v)
  | .GPIO_DATA_SET1 =>
      Function.update regs .GPIO_DATA1 (regs .GPIO_DATA1 ||| v)
  | .GPIO_DATA_RESET0 =>
      Function.update regs .GPIO_DATA0 (regs .GPIO_DATA0 &&& not32 v)
  | .GPIO_DATA_RESET1 =>
      Function.update regs .GPIO_DATA1 (regs .GPIO_DATA1 &&& not32 v)
  | .GPIO_PAD_DIR_SET0 =>
      Function.update regs .GPIO_PAD_DIR0 (regs .GPIO_PAD_DIR0 ||| v)
  | .GPIO_PAD_DIR_SET1 =>
      Function.update regs .GPIO_PAD_DIR1 (regs .GPIO_PAD_DIR1 ||| v)
  | .GPIO_PAD_DIR_RESET0 =>
      Function.update regs .GPIO_PAD_DIR0 (regs .GPIO_PAD_DIR0 &&& not32 v)
  | .GPIO_PAD_DIR_RESET1 =>
      Function.update regs .GPIO_PAD_DIR1 (regs .GPIO_PAD_DIR1 &&& not32 v)
  | r => Function.update regs r v

/-- The C assignment `gpio_regs->r = v`: one 32-bit store, recorded in `stores`. -/
def gpio_write (g : Gpio) (r : GpioReg) (v : Nat) : Gpio :=
  { regs := gpio_hw_store g.regs r (v % 2 ^ 32)
    stores := g.stores ++ [(r, v % 2 ^ 32)] }

/-- `gpio_set_port_dir_input`. -/
def gpio_set_port_dir_input (g : Gpio) (port mask : Nat) : gpio_err_t × Gpio :=
  if port = gpio_port_0 then
    (.gpio_no_error, gpio_write g .GPIO_PAD_DIR_RESET0 mask)
  else if port = gpio_port_1 then
    (.gpio_no_error, gpio_write g .GPIO_PAD_DIR_RESET1 mask)
  else
    (.gpio_invalid_parameter, g)

/-- `gpio_set_port_dir_output`. -/
def gpio_set_port_dir_output (g : Gpio) (port mask : Nat) : gpio_err_t × Gpio :=
  if port = gpio_port_0 then
    (.gpio_no_error, gpio_write g .GPIO_PAD_DIR_SET0 mask)
  else if port = gpio_port_1 then
    (.gpio_no_error, gpio_write g .GPIO_PAD_DIR_SET1 mask)
  else
    (.gpio_invalid_parameter, g)

/-- `gpio_set_pin_dir_input`.  The range test is the conjunction written in the
source, `pin < gpio_pin_0 && pin > gpio_pin_63`. -/
def gpio_set_pin_dir_input (g : Gpio) (pin : Nat) : gpio_err_t × Gpio :=
  if pin < gpio_pin_0 ∧ pin > gpio_pin_63 then
    (.gpio_invalid_parameter, g)
  else if pin < gpio_pin_32 then
    (.gpio_no_error, gpio_write g .GPIO_PAD_DIR_RESET0 (shl32 1 pin))
  else
    (.gpio_no_error, gpio_write g .GPIO_PAD_DIR_RESET1 (shl32 1 (sub32 pin gpio_pin_32)))

/-- `gpio_set_pin_dir_output`. -/
def gpio_set_pin_dir_output (g : Gpio) (pin : Nat) : gpio_err_t × Gpio :=
  if pin < gpio_pin_0 ∧ pin > gpio_pin_63 then
    (.gpio_invalid_parameter, g)
  else if pin < gpio_pin_32 then
    (.gpio_no_error, gpio_write g .GPIO_PAD_DIR_SET0 (shl32 1 pin))
  else
    (.gpio_no_error, gpio_write g .GPIO_PAD_DIR_SET1 (shl32 1 (sub32 pin gpio_pin_32)))

/-- `gpio_set_port`. -/
def gpio_set_port (g : Gpio) (port mask : Nat) : gpio_err_t × Gpio :=
  if port = gpio_port_0 then
    (.gpio_no_error, gpio_write g .GPIO_DATA_SET0 mask)
  else if port = gpio_port_1 then
    (.gpio_no_error, gpio_write g .GPIO_DATA_SET1 mask)
  else
    (.gpio_invalid_parameter, g)

/-- `gpio_clear_port`. -/
def gpio_clear_port (g : Gpio) (port mask : Nat) : gpio_err_t × Gpio :=
  if port = gpio_port_0 then
    (.gpio_no_error, gpio_write g .GPIO_DATA_RESET0 mask)
  else if port = gpio_port_1 then
    (.gpio_no_error, gpio_write g .GPIO_DATA_RESET1 mask)
  else
    (.gpio_invalid_parameter, g)

/-- `gpio_set_pin`. -/
def gpio_set_pin (g : Gpio) (pin : Nat) : gpio_err_t × Gpio :=
  if pin < gpio_pin_0 ∧ pin > gpio_pin_63 then
    (.gpio_invalid_parameter, g)
  else if pin < gpio_pin_32 then
    (.gpio_no_error, gpio_write g .GPIO_DATA_SET0 (shl32 1 pin))
  else
    (.gpio_no_error, gpio_write g .GPIO_DATA_SET1 (shl32 1 (sub32 pin gpio_pin_32)))

/-- `gpio_clear_pin`. -/
def gpio_clear_pin (g : Gpio) (pin : Nat) : gpio_err_t × Gpio :=
  if pin < gpio_pin_0 ∧ pin > gpio_pin_63 then
    (.gpio_invalid_parameter, g)
  else if pin < gpio_pin_32 then
    (.gpio_no_error, gpio_write g .GPIO_DATA_RESET0 (shl32 1 pin))
  else
    (.gpio_no_error, gpio_write g .GPIO_DATA_RESET1 (shl32 1 (sub32 pin gpio_pin_32)))

/-- `gpio_get_port`: `port_data` is the word the caller's pointer refers to
before the call; the result is the error code and that word after the call.
Loads do not change the register block. -/
def gpio_get_port (g : Gpio) (port port_data : Nat) : gpio_err_t × Nat :=
  if port = gpio_port_0 then
    (.gpio_no_error, g.regs .GPIO_DATA0)
  else if port = gpio_port_1 then
    (.gpio_no_error, g.regs .GPIO_DATA1)
  else
    (.gpio_invalid_parameter, port_data)

/-- `gpio_get_pin`: `pin_data` is the word the caller's pointer refers to before
the call; the result is the error code and that word after the call.  As in
the source, both range tests read `*pin_data`, not `pin`. -/
def gpio_get_pin (g : Gpio) (pin pin_data : Nat) : gpio_err_t × Nat :=
  if pin_data < gpio_pin_0 ∧ pin_data > gpio_pin_63 then
    (.gpio_invalid_parameter, pin_data)
  else if pin_data < gpio_pin_32 then
    (.gpio_no_error, g.regs .GPIO_DATA0 &&& shl32 1 pin)
  else
    (.gpio_no_error, g.regs .GPIO_DATA1 &&& shl32 1 (sub32 pin gpio_pin_32))

/-- The conversion of a `gpio_func_t` to its 2-bit code at the head of
`gpio_set_port_func` and `gpio_set_pin_func`; `none` is the final `else`. -/
def gpio_func_code (func : Nat) : Option Nat :=
  if func = gpio_func_normal then some 0x00000000
  else if func = gpio_func_alternate_1 then some 0x00000001
  else if func = gpio_func_alternate_2 then some 0x00000002
  else if func = gpio_func_alternate_3 then some 0x00000003
  else none

/-- The read-modify-write
`reg = (reg & ~(3 << k*2)) | (function << k*2)` of one function-select register. -/
def gpio_func_sel_rmw (g : Gpio) (reg : GpioReg) (function k : Nat) : Gpio :=
  gpio_write g reg ((g.regs reg &&& not32 (shl32 3 (k * 2))) ||| shl32 function (k * 2))

/-- One of the four `for` loops of `gpio_set_port_func`: `j` runs over 0..15 and
`i = i0 + j` is the bit of `mask` that is tested. -/
def gpio_set_port_func_loop (g : Gpio) (reg : GpioReg) (function mask i0 : Nat) : Gpio :=
  (List.range 16).foldl
    (fun g j => if mask &&& shl32 1 (i0 + j) ≠ 0 then gpio_func_sel_rmw g reg function j else g) g

/-- `gpio_set_port_func`. -/
def gpio_set_port_func (g : Gpio) (port func mask : Nat) : gpio_err_t × Gpio :=
  match gpio_func_code func with
  | none => (.gpio_invalid_parameter, g)
  | some function =>
    if port = gpio_port_0 then
      let g := gpio_set_port_func_loop g .GPIO_FUNC_SEL0 function mask 0
      let g := gpio_set_port_func_loop g .GPIO_FUNC_SEL1 function mask gpio_pin_16
      (.gpio_no_error, g)
    else if port = gpio_port_1 then
      let g := gpio_set_port_func_loop g .GPIO_FUNC_SEL2 function mask 0
      let g := gpio_set_port_func_loop g .GPIO_FUNC_SEL3 function mask gpio_pin_16
      (.gpio_no_error, g)
    else
      (.gpio_invalid_parameter, g)

/-- `gpio_set_pin_func`. -/
def gpio_set_pin_func (g : Gpio) (pin func : Nat) : gpio_err_t × Gpio :=
  match gpio_func_code func with
  | none => (.gpio_invalid_parameter, g)
  | some function =>
    if pin < gpio_pin_0 ∧ pin > gpio_pin_63 then
      (.gpio_invalid_parameter, g)
    else if pin < gpio_pin_16 then
      (.gpio_no_error, gpio_func_sel_rmw g .GPIO_FUNC_SEL0 function pin)
    else if pin < gpio_pin_32 then
      (.gpio_no_error, gpio_func_sel_rmw g .GPIO_FUNC_SEL1 function (sub32 pin 16))
    else if pin < gpio_pin_48 then
      (.gpio_no_error, gpio_func_sel_rmw g .GPIO_FUNC_SEL2 function (sub32 pin 32))
    else if pin < gpio_pin_max then
      (.gpio_no_error, gpio_func_sel_rmw g .GPIO_FUNC_SEL3 function (sub32 pin 48))
    else
      (.gpio_invalid_parameter, g)

/-! ## circular_buffer : byte ring used by the UART driver -/

/-- The ways an execution can leave the defined behaviour of the program. -/
inductive Fault where
  /-- A step whose behaviour the contract leaves undefined was reached. -/
  | undefined
  /-- A busy-wait loop was still spinning when its poll budget ran out. -/
  | no_progress
  deriving DecidableEq, Repr

/-- Modelled from the spec: `circular_buffer.c` is not part of the sources.  The
spec gives a backing storage region, a fixed capacity, a read cursor, a write
cursor and the occupancy from which full / empty are derived. -/
structure circular_buffer_t where
  storage : List Nat
  capacity : Nat
  rd : Nat
  wr : Nat
  count : Nat
  deriving DecidableEq, Repr

/-- Modelled from the spec: `init(storage, capacity)`, an empty ring over the
given storage (`circular_buffer.c` is not part of the sources). -/
def circular_buffer_init (storage : List Nat) (capacity : Nat) : circular_buffer_t :=
  { storage := storage, capacity := capacity, rd := 0, wr := 0, count := 0 }

/-- Modelled from the spec: `is_empty()` (`circular_buffer.c` is not part of the
sources). -/
def circular_buffer_is_empty (cb : circular_buffer_t) : Bool := cb.count == 0

/-- Modelled from the spec: `is_full()`, occupancy equal to the capacity
(`circular_buffer.c` is not part of the sources). -/
def circular_buffer_is_full (cb : circular_buffer_t) : Bool := cb.count == cb.capacity

/-- Modelled from the spec: `write(byte)`; the caller must have verified the ring
is not full, writing when full is undefined behaviour by contract
(`circular_buffer.c` is not part of the sources). -/
def circular_buffer_write (cb : circular_buffer_t) (byte : Nat) :
    Except Fault circular_buffer_t :=
  if circular_buffer_is_full cb then .error .undefined
  else .ok { cb with
    storage := cb.storage.set cb.wr (byte % 256)
    wr := (cb.wr + 1) % cb.capacity
    count := cb.count + 1 }

/-- Modelled from the spec: `read() -> byte`; the caller must have verified the
ring is not empty, reading when empty is undefined behaviour by contract
(`circular_buffer.c` is not part of the sources). -/
def circular_buffer_read (cb : circular_buffer_t) : Except Fault (Nat × circular_buffer_t) :=
  if circular_buffer_is_empty cb then .error .undefined
  else .ok (cb.storage.getD cb.rd 0,
    { cb with rd := (cb.rd + 1) % cb.capacity, count := cb.count - 1 })

/-- The bytes held in the ring, oldest first. -/
def circular_buffer_t.contents (cb : circular_buffer_t) : List Nat :=
  (List.range cb.count).map (fun k => cb.storage.getD ((cb.rd + k) % cb.capacity) 0)

/-- Number of free slots of the ring. -/
def circular_buffer_t.free (cb : circular_buffer_t) : Nat := cb.capacity - cb.count

/-- Representation invariant of the ring stated in the data model of the spec:
cursors inside the storage, occupancy at most the capacity, the write cursor
`count` cells ahead of the read cursor, and every storage cell a byte. -/
def circular_buffer_t.WF (cb : circular_buffer_t) : Prop :=
  cb.storage.length = cb.capacity ∧ 0 < cb.capacity ∧ cb.rd < cb.capacity ∧
  cb.count ≤ cb.capacity ∧ cb.wr = (cb.rd + cb.count) % cb.capacity ∧
  ∀ x ∈ cb.storage, x < 256

instance (cb : circular_buffer_t) : Decidable cb.WF := by
  unfold circular_buffer_t.WF; infer_instance

/-! ## uart.c : UART driver -/

/-- Modelled from the spec: the enumerators of `uart_id_t` are declared in a
header that is not part of the sources; the spec fixes the identifiers 0 and 1. -/
def uart_1 : Nat := 0

/-- Modelled from the spec: second instance, see `uart_1`. -/
def uart_2 : Nat := 1

/-- Modelled from the spec: number of instances, see `uart_1`. -/
def uart_max : Nat := 2

/-- The value of `errno` for "no such device" (from `errno.h`). -/
def ENODEV : Int := 19

/-- The value of `errno` for "bad address" (from `errno.h`). -/
def EFAULT : Int := 14

/-- The macro `__UART_BUFFER_SIZE__`. -/
def UART_BUFFER_SIZE : Nat := 256

/-- The struct `uart_pins_t`. -/
structure uart_pins_t where
  tx : Nat
  rx : Nat
  cts : Nat
  rts : Nat

/-- The table `uart_pins`. -/
def uart_pins (uart : Nat) : uart_pins_t :=
  if uart = uart_1 then { tx := 14, rx := 15, cts := 16, rts := 17 }
  else { tx := 18, rx := 19, cts := 20, rts := 21 }

/-- The struct `uart_callbacks_t`; a callback is identified by its address,
`none` is `NULL`. -/
structure uart_callbacks_t where
  tx_callback : Option Nat
  rx_callback : Option Nat
  deriving DecidableEq, Repr

/-- Calls that leave the modelled code: callbacks, the interrupt controller and
the device registry.  Only the fact of the call is recorded: a callback is
foreign code, and by the contract of the spec it neither blocks nor re-enters
the send / receive entry points of its instance. -/
inductive Event where
  /-- A callback, identified by its address, was invoked. -/
  | callback (f : Nat)
  /-- `itc_set_priority (itc_src_uart1 + uart, itc_priority_normal)`. -/
  | itc_set_priority (uart : Nat)
  /-- `itc_set_handler (itc_src_uart1 + uart, uart_irq_handlers[uart])`. -/
  | itc_set_handler (uart : Nat)
  /-- `itc_enable_interrupt (itc_src_uart1 + uart)`. -/
  | itc_enable_interrupt (uart : Nat)
  /-- `bsp_register_dev (name, uart, NULL, NULL, uart_receive, uart_send, ...)`. -/
  | bsp_register_dev (name : String) (uart : Nat)
  deriving DecidableEq, Repr

/-- Everything that belongs to one UART instance: the register block
`uart_regs_t`, the peripheral FIFOs behind its data and level registers, the
statically reserved storage, the two rings and the callback slots. -/
structure UartInst where
  /-- Control register. -/
  CON : Nat
  /-- Status register. -/
  STAT : Nat
  /-- Word last stored to the receive FIFO control register. -/
  RxCON : Nat
  /-- Word last stored to the transmit FIFO control register. -/
  TxCON : Nat
  /-- CTS level register. -/
  CTS : Nat
  /-- Baud rate register. -/
  BR : Nat
  /-- Bytes pending in the hardware receive FIFO, oldest first. -/
  rx_fifo : List Nat
  /-- The value `Tx_fifo_addr_diff` shows at the k-th poll of that field. -/
  tx_space : Nat → Nat
  /-- Number of polls of `Tx_fifo_addr_diff` made so far. -/
  tx_polls : Nat
  /-- Bytes stored to `Tx_data` so far, oldest first. -/
  tx_sent : List Nat
  /-- The array `uart_rx_buffers[uart]`. -/
  uart_rx_buffers : List Nat
  /-- The array `uart_tx_buffers[uart]`. -/
  uart_tx_buffers : List Nat
  /-- The ring `uart_circular_rx_buffers[uart]`. -/
  rx_buffer : circular_buffer_t
  /-- The ring `uart_circular_tx_buffers[uart]`. -/
  tx_buffer : circular_buffer_t
  /-- The slot `uart_callbacks[uart]`. -/
  callbacks : uart_callbacks_t

/-- The whole modelled machine. -/
structure System where
  gpio : Gpio
  u1 : UartInst
  u2 : UartInst
  errno : Int
  events : List Event

/-- Instance `uart` of the system (`uart_regs[uart]` and the per-instance tables). -/
def System.uart (s : System) (uart : Nat) : UartInst :=
  if uart = uart_1 then s.u1 else s.u2

/-- Replace instance `uart` of the system. -/
def System.set_uart (s : System) (uart : Nat) (u : UartInst) : System :=
  if uart = uart_1 then { s with u1 := u } else { s with u2 := u }

/-- Bit-field `mTxR` (bit 13 of `CON`). -/
def UartInst.mTxR (u : UartInst) : Nat := get_field u.CON 13 1

/-- Bit-field `mRxR` (bit 14 of `CON`). -/
def UartInst.mRxR (u : UartInst) : Nat := get_field u.CON 14 1

/-- The assignment `uart_regs[uart]->mTxR = v`. -/
def UartInst.set_mTxR (u : UartInst) (v : Nat) : UartInst :=
  { u with CON := set_field u.CON 13 1 v }

/-- The assignment `uart_regs[uart]->mRxR = v`. -/
def UartInst.set_mRxR (u : UartInst) (v : Nat) : UartInst :=
  { u with CON := set_field u.CON 14 1 v }

/-- A load of the status register: the latched error flags (bits 5..0) are
cleared by the read, as the comment in `uart_isr` says. -/
def UartInst.read_STAT (u : UartInst) : Nat × UartInst :=
  (u.STAT, { u with STAT := u.STAT - u.STAT % 64 })

/-- A load of bit-field `RxRdy` (bit 6 of `STAT`). -/
def UartInst.read_RxRdy (u : UartInst) : Nat × UartInst :=
  (get_field u.read_STAT.1 6 1, u.read_STAT.2)

/-- A load of bit-field `TxRdy` (bit 7 of `STAT`). -/
def UartInst.read_TxRdy (u : UartInst) : Nat × UartInst :=
  (get_field u.read_STAT.1 7 1, u.read_STAT.2)

/-- A load of the 6-bit field `Tx_fifo_addr_diff`: one poll of the transmit FIFO. -/
def UartInst.read_Tx_fifo_addr_diff (u : UartInst) : Nat × UartInst :=
  (u.tx_space u.tx_polls % 64, { u with tx_polls := u.tx_polls + 1 })

/-- A load of the 6-bit field `Rx_fifo_addr_diff`: the fill level of the receive
FIFO. -/
def UartInst.Rx_fifo_addr_diff (u : UartInst) : Nat := u.rx_fifo.length % 64

/-- A load of `Rx_data`: takes the oldest byte out of the receive FIFO. -/
def UartInst.read_Rx_data (u : UartInst) : Nat × UartInst :=
  (u.rx_fifo.headD 0, { u with rx_fifo := u.rx_fifo.tail })

/-- The assignment `uart_regs[uart]->Tx_data = c`: hands one byte to the
transmit FIFO. -/
def UartInst.write_Tx_data (u : UartInst) (c : Nat) : UartInst :=
  { u with tx_sent := u.tx_sent ++ [c % 256] }

/-- Conversion of a `size_t` to the `ssize_t` that is returned. -/
def to_ssize_t (n : Nat) : Int :=
  if n % 2 ^ 32 < 2 ^ 31 then (n % 2 ^ 32 : Nat) else (n % 2 ^ 32 : Nat) - 2 ^ 32

/-- `uart_init`; `CPU_FREQ` is the macro of that name, whose definition is in a
header that is not part of the sources.  The result is the state after the
call and the returned value. -/
def uart_init (CPU_FREQ : Nat) (s : System) (uart br : Nat) (name : Option String) :
    System × Int :=
  if uart > uart_2 then
    ({ s with errno := ENODEV }, -1)
  else
    match name with
    | none => ({ s with errno := EFAULT }, -1)
    | some name =>
      let u := s.uart uart
      let u := { u with CON := shl32 1 13 ||| shl32 1 14 }
      let mod := 9999
      let inc := (br * mod) % 2 ^ 32 / (CPU_FREQ >>> 4)
      let u := { u with BR := shl32 inc 16 ||| mod }
      let u := { u with CON := u.CON ||| (shl32 1 0 ||| shl32 1 1) }
      let g := s.gpio
      let g := (gpio_set_pin_func g (uart_pins uart).tx gpio_func_alternate_1).2
      let g := (gpio_set_pin_func g (uart_pins uart).rx gpio_func_alternate_1).2
      let g := (gpio_set_pin_func g (uart_pins uart).cts gpio_func_alternate_1).2
      let g := (gpio_set_pin_func g (uart_pins uart).rts gpio_func_alternate_1).2
      let g := (gpio_set_pin_dir_output g (uart_pins uart).tx).2
      let g := (gpio_set_pin_dir_output g (uart_pins uart).cts).2
      let g := (gpio_set_pin_dir_input g (uart_pins uart).rx).2
      let g := (gpio_set_pin_dir_input g (uart_pins uart).rts).2
      let u := { u with rx_buffer := circular_buffer_init u.uart_rx_buffers UART_BUFFER_SIZE }
      let u := { u with tx_buffer := circular_buffer_init u.uart_tx_buffers UART_BUFFER_SIZE }
      let u := { u with TxCON := set_field u.TxCON 0 5 31 }
      let u := { u with RxCON := set_field u.RxCON 0 5 1 }
      let ev := s.events ++ [Event.itc_set_priority uart, Event.itc_set_handler uart,
        Event.itc_enable_interrupt uart]
      let u := { u with callbacks := { tx_callback := none, rx_callback := none } }
      let u := u.set_mRxR 0
      let ev := ev ++ [Event.bsp_register_dev name uart]
      ({ s with gpio := g, events := ev }.set_uart uart u, 0)

/-- A busy-wait `while (!uart_regs[uart]->Tx_fifo_addr_diff);` that polls at most
`fuel` times. -/
def tx_fifo_wait : Nat → UartInst → Except Fault UartInst
  | 0, _ => .error .no_progress
  | fuel + 1, u =>
    if u.read_Tx_fifo_addr_diff.1 ≠ 0 then .ok u.read_Tx_fifo_addr_diff.2
    else tx_fifo_wait fuel u.read_Tx_fifo_addr_diff.2

/-- The first `while` loop of `uart_send_byte`; `n` bounds the number of
iterations and is instantiated with the occupancy of the tx ring, which each
iteration decreases by one. -/
def uart_send_byte_drain (fuel : Nat) : Nat → UartInst → Except Fault UartInst
  | 0, u => if !circular_buffer_is_empty u.tx_buffer then .error .no_progress else .ok u
  | n + 1, u =>
    if !circular_buffer_is_empty u.tx_buffer then do
      let u ← tx_fifo_wait fuel u
      let r ← circular_buffer_read u.tx_buffer
      uart_send_byte_drain fuel n ({ u with tx_buffer := r.2 }.write_Tx_data r.1)
    else .ok u

/-- `uart_send_byte`; every busy-wait polls at most `fuel` times.  The function
indexes the per-instance tables without a range test. -/
def uart_send_byte (fuel : Nat) (s : System) (uart c : Nat) : Except Fault System :=
  if uart ≥ uart_max then .error .undefined
  else do
    let u := s.uart uart
    let aux := u.mTxR
    let u := u.set_mTxR 1
    let u ← uart_send_byte_drain fuel u.tx_buffer.count u
    let u ← tx_fifo_wait fuel u
    let u := u.write_Tx_data c
    let u := u.set_mTxR aux
    .ok (s.set_uart uart u)

/-- `uart_receive_byte`: the state after the call and the byte returned.  The
receive FIFO only fills between calls, so the busy-wait on an empty FIFO
never ends. -/
def uart_receive_byte (s : System) (uart : Nat) : Except Fault (System × Nat) :=
  if uart ≥ uart_max then .error .undefined
  else do
    let u := s.uart uart
    let aux := u.mRxR
    let u := u.set_mRxR 1
    if !circular_buffer_is_empty u.rx_buffer then do
      let r ← circular_buffer_read u.rx_buffer
      let u := { u with rx_buffer := r.2 }
      let u := u.set_mRxR aux
      .ok (s.set_uart uart u, r.1)
    else if u.Rx_fifo_addr_diff = 0 then .error .no_progress
    else
      let recep := u.read_Rx_data.1 % 256
      let u := u.read_Rx_data.2
      let u := u.set_mRxR aux
      .ok (s.set_uart uart u, recep)

/-- The `for` loop of `uart_send`: `k` is `count - i`, the result is the final
`i` and the tx ring. -/
def uart_send_loop (buf : Nat → Nat) :
    Nat → Nat → circular_buffer_t → Except Fault (Nat × circular_buffer_t)
  | 0, i, cb => .ok (i, cb)
  | k + 1, i, cb =>
    if !circular_buffer_is_full cb then do
      let cb ← circular_buffer_write cb (buf i)
      uart_send_loop buf k (i + 1) cb
    else .ok (i, cb)

/-- `uart_send`; `buf` is the memory the pointer refers to (`none` is `NULL`),
indexed from the pointer.  The result is the state after the call and the
returned value. -/
def uart_send (s : System) (uart : Nat) (buf : Option (Nat → Nat)) (count : Nat) :
    Except Fault (System × Int) :=
  if uart > uart_2 then
    .ok ({ s with errno := ENODEV }, -1)
  else
    match buf with
    | none => .ok ({ s with errno := EFAULT }, -1)
    | some b =>
      if count < 0 then .ok ({ s with errno := EFAULT }, -1)
      else do
        let u := s.uart uart
        let u := u.set_mTxR 1
        let r ← uart_send_loop b count 0 u.tx_buffer
        let u := { u with tx_buffer := r.2 }
        let u := u.set_mTxR 0
        .ok (s.set_uart uart u, to_ssize_t r.1)

/-- The `for` loop of `uart_receive`: `k` is `count - i`, the result is the
final `i`, the caller's memory and the rx ring. -/
def uart_receive_loop :
    Nat → Nat → (Nat → Nat) → circular_buffer_t →
      Except Fault (Nat × (Nat → Nat) × circular_buffer_t)
  | 0, i, buf, cb => .ok (i, buf, cb)
  | k + 1, i, buf, cb =>
    if !circular_buffer_is_empty cb then do
      let r ← circular_buffer_read cb
      uart_receive_loop k (i + 1) (Function.update buf i r.1) r.2
    else .ok (i, buf, cb)

/-- `uart_receive`; `buf` is the memory the pointer refers to (`none` is
`NULL`).  The result is the state after the call, the caller's memory after
the call and the returned value. -/
def uart_receive (s : System) (uart : Nat) (buf : Option (Nat → Nat)) (count : Nat) :
    Except Fault (System × Option (Nat → Nat) × Int) :=
  if uart > uart_2 then
    .ok ({ s with errno := ENODEV }, buf, -1)
  else
    match buf with
    | none => .ok ({ s with errno := EFAULT }, none, -1)
    | some b =>
      if count < 0 then .ok ({ s with errno := EFAULT }, some b, -1)
      else do
        let u := s.uart uart
        let u := u.set_mRxR 1
        let r ← uart_receive_loop count 0 b u.rx_buffer
        let u := { u with rx_buffer := r.2.2 }
        let u := u.set_mRxR 0
        .ok (s.set_uart uart u, some r.2.1, to_ssize_t r.1)

/-- `uart_set_receive_callback`. -/
def uart_set_receive_callback (s : System) (uart : Nat) (func : Option Nat) : System × Int :=
  if uart > uart_2 then
    ({ s with errno := ENODEV }, -1)
  else
    let u := s.uart uart
    (s.set_uart uart { u with callbacks := { u.callbacks with rx_callback := func } }, 0)

/-- `uart_set_send_callback`. -/
def uart_set_send_callback (s : System) (uart : Nat) (func : Option Nat) : System × Int :=
  if uart > uart_2 then
    ({ s with errno := ENODEV }, -1)
  else
    let u := s.uart uart
    (s.set_uart uart { u with callbacks := { u.callbacks with tx_callback := func } }, 0)

/-- The receive `while` loop of `uart_isr`; `n` bounds the number of iterations
and is instantiated with the length of the receive FIFO, which each
iteration shortens by one. -/
def uart_isr_rx_loop : Nat → UartInst → Except Fault UartInst
  | 0, u =>
    if !circular_buffer_is_full u.rx_buffer ∧ u.Rx_fifo_addr_diff ≠ 0 then .error .no_progress
    else .ok u
  | n + 1, u =>
    if !circular_buffer_is_full u.rx_buffer ∧ u.Rx_fifo_addr_diff ≠ 0 then do
      let cb ← circular_buffer_write u.rx_buffer u.read_Rx_data.1
      uart_isr_rx_loop n { u.read_Rx_data.2 with rx_buffer := cb }
    else .ok u

/-- The transmit `while` loop of `uart_isr`; `n` bounds the number of iterations
and is instantiated with the occupancy of the tx ring.  The FIFO is polled
only when the ring is not empty (`&&` evaluates left to right). -/
def uart_isr_tx_loop : Nat → UartInst → Except Fault UartInst
  | 0, u => if !circular_buffer_is_empty u.tx_buffer then .error .no_progress else .ok u
  | n + 1, u =>
    if !circular_buffer_is_empty u.tx_buffer then
      if u.read_Tx_fifo_addr_diff.1 ≠ 0 then do
        let u := u.read_Tx_fifo_addr_diff.2
        let r ← circular_buffer_read u.tx_buffer
        uart_isr_tx_loop n ({ u with tx_buffer := r.2 }.write_Tx_data r.1)
      else .ok u.read_Tx_fifo_addr_diff.2
    else .ok u

/-- The invocation `if (cb) cb();` of a callback slot. -/
def call_callback (events : List Event) (cb : Option Nat) : List Event :=
  match cb with
  | none => events
  | some f => events ++ [Event.callback f]

/-- The `if (uart_regs[uart]->RxRdy) { ... }` block of `uart_isr`, on the
instance and the list of recorded calls. -/
def uart_isr_rx (u : UartInst) (ev : List Event) : Except Fault (UartInst × List Event) :=
  if u.read_RxRdy.1 ≠ 0 then do
    let u ← uart_isr_rx_loop u.read_RxRdy.2.rx_fifo.length u.read_RxRdy.2
    let ev := call_callback ev u.callbacks.rx_callback
    let u := if circular_buffer_is_full u.rx_buffer then u.set_mRxR 1 else u
    .ok (u, ev)
  else .ok (u.read_RxRdy.2, ev)

/-- The `if (uart_regs[uart]->TxRdy) { ... }` block of `uart_isr`, on the
instance and the list of recorded calls. -/
def uart_isr_tx (u : UartInst) (ev : List Event) : Except Fault (UartInst × List Event) :=
  if u.read_TxRdy.1 ≠ 0 then do
    let u ← uart_isr_tx_loop u.read_TxRdy.2.tx_buffer.count u.read_TxRdy.2
    let ev := call_callback ev u.callbacks.tx_callback
    let u := if circular_buffer_is_empty u.tx_buffer then u.set_mTxR 1 else u
    .ok (u, ev)
  else .ok (u.read_TxRdy.2, ev)

/-- `uart_isr`, the handler shared by `uart_1_isr` and `uart_2_isr`: the load of
`STAT` into `status`, then the receive block, then the transmit block.  The
function indexes the per-instance tables without a range test. -/
def uart_isr (s : System) (uart : Nat) : Except Fault System :=
  if uart ≥ uart_max then .error .undefined
  else do
    let u := (s.uart uart).read_STAT.2
    let r ← uart_isr_rx u s.events
    let r ← uart_isr_tx r.1 r.2
    .ok ({ s with events := r.2 }.set_uart uart r.1)

/-- A system in which every register reads 0, the FIFOs are idle, the transmit
FIFO always reports one free slot, and both rings of both instances are
initialised and empty. -/
def uart_idle : UartInst :=
  { CON := 0, STAT := 0, RxCON := 0, TxCON := 0, CTS := 0, BR := 0
    rx_fifo := [], tx_space := fun _ => 1, tx_polls := 0, tx_sent := []
    uart_rx_buffers := List.replicate 256 0
    uart_tx_buffers := List.replicate 256 0
    rx_buffer := circular_buffer_init (List.replicate 256 0) UART_BUFFER_SIZE
    tx_buffer := circular_buffer_init (List.replicate 256 0) UART_BUFFER_SIZE
    callbacks := { tx_callback := none, rx_callback := none } }

/-! ## Concrete states used to exercise the theorems -/

/-- A register block in which every register reads 0 and no store was issued. -/
def gpio_reset : Gpio := { regs := fun _ => 0, stores := [] }

/-- A register block in which pin 5 (bit 5 of `GPIO_DATA0`) is high and every
other register reads 0. -/
def gpio_pin5_high : Gpio :=
  { regs := fun r => if r = GpioReg.GPIO_DATA0 then 0x20 else 0, stores := [] }

/-- The idle system: both instances idle, every GPIO register 0, nothing recorded. -/
def sys_idle : System :=
  { gpio := gpio_reset, u1 := uart_idle, u2 := uart_idle, errno := 0, events := [] }

/-- Caller memory holding the two characters "AB" followed by zeros. -/
def buf_AB : Nat → Nat := fun i => if i = 0 then 65 else if i = 1 then 66 else 0

/-- A device name, as passed to `uart_init`. -/
def dev_name : String := "uart1"

/-- Caller memory holding zeros. -/
def buf_zero : Nat → Nat := fun _ => 0

/-- The idle system after the bytes "Hi" arrived in the rx ring of instance 0
and the bytes "ok" were queued in its tx ring, with `TxRdy` raised. -/
def sys_busy : System :=
  { sys_idle with
    u1 := { uart_idle with
      STAT := 0x80
      rx_buffer := { storage := 72 :: 105 :: List.replicate 254 0, capacity := 256,
                     rd := 0, wr := 2, count := 2 }
      tx_buffer := { storage := 111 :: 107 :: List.replicate 254 0, capacity := 256,
                     rd := 0, wr := 2, count := 2 } } }

/-- The idle system with `TxRdy` raised on instance 0. -/
def sys_tx_ready : System :=
  { sys_idle with u1 := { uart_idle with STAT := 0x80 } }

/-- The function-select register number `n` (0..3); pin `p` is configured in
register number `p / 16`. -/
def gpio_func_sel_reg (n : Nat) : GpioReg :=
  match n with
  | 0 => GpioReg.GPIO_FUNC_SEL0
  | 1 => GpioReg.GPIO_FUNC_SEL1
  | 2 => GpioReg.GPIO_FUNC_SEL2
  | _ => GpioReg.GPIO_FUNC_SEL3

/-- The 2-bit function field of pin `pin` in a register block: bits
`2 * (pin % 16) + 1 .. 2 * (pin % 16)` of function-select register `pin / 16`. -/
def gpio_pin_func_field (regs : GpioReg → Nat) (pin : Nat) : Nat :=
  get_field (regs (gpio_func_sel_reg (pin / 16))) (2 * (pin % 16)) 2

/-- The effect described for `gpio_set_port_func`: `gpio_set_pin_func
(32 * port + i, func)` is called, in increasing order, for every `i` in 0..31
whose bit is set in `mask`. -/
def gpio_set_port_func_by_pins (g : Gpio) (port func mask : Nat) : Gpio :=
  (List.range 32).foldl
    (fun g i => if mask.testBit i then (gpio_set_pin_func g (32 * port + i) func).2 else g) g

/-- The atomic data set register of a port. -/
def gpio_data_set_reg (port : Nat) : GpioReg :=
  if port = gpio_port_0 then GpioReg.GPIO_DATA_SET0 else GpioReg.GPIO_DATA_SET1

/-- The atomic data reset register of a port. -/
def gpio_data_reset_reg (port : Nat) : GpioReg :=
  if port = gpio_port_0 then GpioReg.GPIO_DATA_RESET0 else GpioReg.GPIO_DATA_RESET1

/-- The atomic direction set register of a port. -/
def gpio_pad_dir_set_reg (port : Nat) : GpioReg :=
  if port = gpio_port_0 then GpioReg.GPIO_PAD_DIR_SET0 else GpioReg.GPIO_PAD_DIR_SET1

/-- The atomic direction reset register of a port. -/
def gpio_pad_dir_reset_reg (port : Nat) : GpioReg :=
  if port = gpio_port_0 then GpioReg.GPIO_PAD_DIR_RESET0 else GpioReg.GPIO_PAD_DIR_RESET1

/-- The direction register of a port (a set bit is an output). -/
def gpio_pad_dir_reg (port : Nat) : GpioReg :=
  if port = gpio_port_0 then GpioReg.GPIO_PAD_DIR0 else GpioReg.GPIO_PAD_DIR1

/-- A register block in which pin 0 is already an output (`GPIO_PAD_DIR0 = 1`)
and every other register reads 0. -/
def gpio_pin0_output : Gpio :=
  { regs := fun r => if r = GpioReg.GPIO_PAD_DIR0 then 1 else 0, stores := [] }

/-- The baud divisor of the spec: `baud * 9999 / (core_clock >> 4)` in unsigned
32-bit arithmetic. -/
def uart_baud_divisor (core_clock baud : Nat) : Nat :=
  (baud * 9999) % 2 ^ 32 / (core_clock >>> 4)

/-- The idle system with "Hi" held in the rx ring of instance 0, the three
bytes "abc" pending in its receive FIFO and `RxRdy` raised. -/
def sys_rx_pending : System :=
  { sys_idle with
    u1 := { uart_idle with
      STAT := 0x40
      rx_fifo := [97, 98, 99]
      rx_buffer := { storage := 72 :: 105 :: List.replicate 254 0, capacity := 256,
                     rd := 0, wr := 2, count := 2 } } }

/-! ## Sequential executions of the driver -/

/-- One call of the driver: the two blocking single-byte operations (with their
poll budget where they busy-wait on the transmit FIFO), the two bulk
operations, and one run of the interrupt service routine. -/
inductive DriverCall where
  | send_byte (fuel uart c : Nat)
  | receive_byte (uart : Nat)
  | send (uart : Nat) (buf : Option (Nat → Nat)) (count : Nat)
  | receive (uart : Nat) (buf : Option (Nat → Nat)) (count : Nat)
  | isr (uart : Nat)

/-- The instance a call works on. -/
def DriverCall.uart : DriverCall → Nat
  | .send_byte _ uart _ => uart
  | .receive_byte uart => uart
  | .send uart _ _ => uart
  | .receive uart _ _ => uart
  | .isr uart => uart

/-- Whether a call contains a busy-wait loop. -/
def DriverCall.blocking : DriverCall → Bool
  | .send_byte _ _ _ => true
  | .receive_byte _ => true
  | _ => false

/-- The state after one call; the value the call returns is dropped. -/
def driver_step (s : System) : DriverCall → Except Fault System
  | .send_byte fuel uart c => uart_send_byte fuel s uart c
  | .receive_byte uart =>
    match uart_receive_byte s uart with
    | .ok r => .ok r.1
    | .error e => .error e
  | .send uart buf count =>
    match uart_send s uart buf count with
    | .ok r => .ok r.1
    | .error e => .error e
  | .receive uart buf count =>
    match uart_receive s uart buf count with
    | .ok r => .ok r.1
    | .error e => .error e
  | .isr uart => uart_isr s uart

/-- The calls of a list run one after the other; the run stops at the first
call that leaves the defined behaviour. -/
def driver_run : System → List DriverCall → Except Fault System
  | s, [] => .ok s
  | s, c :: cs =>
    match driver_step s c with
    | .ok s' => driver_run s' cs
    | .error e => .error e

/-- Both rings of an instance satisfy the ring invariant (in particular their
occupancy is at most their capacity) and no callback is registered. -/
def UartInst.inv (u : UartInst) : Prop :=
  u.rx_buffer.WF ∧ u.tx_buffer.WF ∧
  u.callbacks.tx_callback = none ∧ u.callbacks.rx_callback = none

instance (u : UartInst) : Decidable u.inv := by
  unfold UartInst.inv; infer_instance

/-- The invariant `UartInst.inv` on both instances. -/
def System.inv (s : System) : Prop := s.u1.inv ∧ s.u2.inv

instance (s : System) : Decidable s.inv := by
  unfold System.inv; infer_instance

/-- A sequence of calls on both instances: a bulk send and an ISR run on
instance 0, a blocking send on instance 1, a bulk receive on instance 0, a
second ISR run, and a blocking receive on instance 1 (whose ring and FIFO are
empty). -/
def calls_demo : List DriverCall :=
  [DriverCall.send 0 (some buf_AB) 2, DriverCall.isr 0, DriverCall.send_byte 1 1 33,
   DriverCall.receive 0 (some buf_zero) 10, DriverCall.isr 0, DriverCall.receive_byte 1]

/-! # Theorems -/

/-! ## Word lemmas -/

theorem or_mod_pow (a b n : Nat) : (a ||| b) % 2 ^ n = a % 2 ^ n ||| b % 2 ^ n := by
  apply Nat.eq_of_testBit_eq
  intro i
  simp only [Nat.testBit_mod_two_pow, Nat.testBit_or, Bool.and_or_distrib_left]

theorem and_mod_pow (a b n : Nat) : (a &&& b) % 2 ^ n = a % 2 ^ n &&& b % 2 ^ n := by
  apply Nat.eq_of_testBit_eq
  intro i
  simp only [Nat.testBit_mod_two_pow, Nat.testBit_and]
  cases decide (i < n) <;> simp

theorem or_byte (a b : Nat) : (a ||| b) % 256 = a % 256 ||| b % 256 := or_mod_pow a b 8

theorem and_byte (a b : Nat) : (a &&& b) % 256 = a % 256 &&& b % 256 := and_mod_pow a b 8

theorem shr6_and3 (s : Nat) : (s >>> 6) &&& 3 = s % 256 / 64 := by
  have h := Nat.and_pow_two_sub_one_eq_mod (s >>> 6) 2
  simp only [show 2 ^ 2 - 1 = 3 from rfl] at h
  rw [h, Nat.shiftRight_eq_div_pow]
  omega

theorem testBit_low_high (a r j : Nat) :
    (a / 256 * 256 + r % 256).testBit j = if j < 8 then r.testBit j else a.testBit j := by
  have h : a / 256 * 256 + r % 256 = 2 ^ 8 * (a / 256) + r % 256 := by ring
  rw [h, Nat.testBit_mul_pow_two_add _ (by omega)]
  split
  · rename_i hj
    have h8 := Nat.testBit_mod_two_pow r 8 j
    simp only [show (2 : Nat) ^ 8 = 256 from rfl] at h8
    rw [h8]; simp [hj]
  · rename_i hj
    have h8 : a / 256 = a >>> 8 := by rw [Nat.shiftRight_eq_div_pow]
    rw [h8, Nat.testBit_shiftRight]
    congr 1; omega

theorem testBit_byte_high {c j : Nat} (hc : c < 256) (hj : 8 ≤ j) : c.testBit j = false := by
  apply Nat.testBit_lt_two_pow
  calc c < 2 ^ 8 := hc
    _ ≤ 2 ^ j := Nat.pow_le_pow_right (by decide) hj

theorem or_small_high (s c : Nat) (hc : c < 256) :
    s / 256 * 256 + (s ||| c) % 256 = s ||| c := by
  apply Nat.eq_of_testBit_eq
  intro j
  rw [testBit_low_high]
  split
  · rfl
  · rw [Nat.testBit_or, testBit_byte_high hc (by omega)]; simp

/-! ## excep.c -/

set_option maxRecDepth 100000 in
theorem byte_disable_restore_ints : ∀ l < 256,
    (l ||| 192) < 256 ∧ (l ||| 192) % 32 = l % 32 ∧
    (l ||| 192) / 128 % 2 = 1 ∧ (l ||| 192) / 64 % 2 = 1 ∧
    ((l ||| 192) &&& 63 ||| (((l / 64) &&& 3) <<< 6) % 2 ^ 32 % 256) = l := by
  decide

theorem excep_disable_ints_snd (s : Nat) (hpriv : s % 32 ≠ 16) :
    (excep_disable_ints s).2 = s ||| 0xC0 := by
  simp only [excep_disable_ints, msr_cpsr_c, if_neg hpriv]
  exact or_small_high s 192 (by decide)

theorem excep_restore_disable_ints (s : Nat) :
    excep_restore_ints (excep_disable_ints s).2 (excep_disable_ints s).1 = s := by
  by_cases h : s % 32 = 16
  · simp [excep_disable_ints, excep_restore_ints, msr_cpsr_c, h]
  · obtain ⟨hb1, hb2, -, -, hb3⟩ := byte_disable_restore_ints (s % 256) (Nat.mod_lt _ (by decide))
    have ho : (s ||| 192) % 256 = s % 256 ||| 192 := or_byte s 192
    have hmode : (s / 256 * 256 + (s ||| 192) % 256) % 32 ≠ 16 := by omega
    simp only [excep_disable_ints, excep_restore_ints, msr_cpsr_c, if_neg h, if_neg hmode, bic32]
    have hd : (s / 256 * 256 + (s ||| 192) % 256) / 256 = s / 256 := by omega
    have hm : (s / 256 * 256 + (s ||| 192) % 256) % 256 = (s ||| 192) % 256 := by omega
    rw [hd, or_byte, and_byte, hm, shr6_and3, ho]
    have h63 : (4294967295 ^^^ 192) % 256 = 63 := by decide
    rw [h63, hb3]
    omega

/-- C8 (as amended): for every status register value `s` in a privileged mode
(mode field different from User, `0b10000`), `excep_disable_ints` returns
`(s >> 6) & 3`, which is `2*I + F`, sets both mask bits `I` and `F` and leaves
every other bit of `s` unchanged, and `excep_restore_ints` applied to the
returned value yields exactly `s` again. -/
theorem excep_disable_restore_ints_privileged (s : Nat) (hpriv : s % 32 ≠ 16) :
    (excep_disable_ints s).1 = (s >>> 6) &&& 3 ∧
    (excep_disable_ints s).1 = 2 * cpsr_I s + cpsr_F s ∧
    (excep_disable_ints s).2 = s ||| 0xC0 ∧
    cpsr_I (excep_disable_ints s).2 = 1 ∧ cpsr_F (excep_disable_ints s).2 = 1 ∧
    (∀ i, i ≠ 6 → i ≠ 7 →
      Nat.testBit (excep_disable_ints s).2 i = Nat.testBit s i) ∧
    excep_restore_ints (excep_disable_ints s).2 (excep_disable_ints s).1 = s := by
  have hsnd := excep_disable_ints_snd s hpriv
  obtain ⟨hb1, -, hb2, hb3, -⟩ := byte_disable_restore_ints (s % 256) (Nat.mod_lt _ (by decide))
  have hsplit := or_small_high s 192 (by decide)
  have ho : (s ||| 192) % 256 = s % 256 ||| 192 := or_byte s 192
  refine ⟨rfl, ?_, hsnd, ?_, ?_, ?_, excep_restore_disable_ints s⟩
  · show (s >>> 6) &&& 3 = _
    rw [shr6_and3]; unfold cpsr_I cpsr_F; omega
  · rw [hsnd]; unfold cpsr_I; omega
  · rw [hsnd]; unfold cpsr_F; omega
  · intro i h6 h7
    rw [hsnd, Nat.testBit_or]
    have h192 : Nat.testBit 192 i = false := by
      by_cases hi : i < 8
      · interval_cases i <;> first | rfl | exact absurd rfl h6 | exact absurd rfl h7
      · exact testBit_byte_high (by decide) (by omega)
    simp [h192]

/-- Witness for C8: the amended statement at `s = 0x13` (Supervisor mode, both
interrupt sources enabled). -/
theorem excep_disable_restore_ints_privileged_witness :
    0x13 % 32 ≠ 16 ∧
    ((excep_disable_ints 0x13).1 = (0x13 >>> 6) &&& 3 ∧
    (excep_disable_ints 0x13).1 = 2 * cpsr_I 0x13 + cpsr_F 0x13 ∧
    (excep_disable_ints 0x13).2 = 0x13 ||| 0xC0 ∧
    cpsr_I (excep_disable_ints 0x13).2 = 1 ∧ cpsr_F (excep_disable_ints 0x13).2 = 1 ∧
    (∀ i, i ≠ 6 → i ≠ 7 →
      Nat.testBit (excep_disable_ints 0x13).2 i = Nat.testBit 0x13 i) ∧
    excep_restore_ints (excep_disable_ints 0x13).2 (excep_disable_ints 0x13).1 = 0x13) :=
  ⟨by decide, excep_disable_restore_ints_privileged 0x13 (by decide)⟩

/-- Counterexample for C8 as stated: at `s = 0x10` (User mode, both sources
enabled) `excep_disable_ints` leaves the status register as it was, so neither
mask bit is set. -/
theorem excep_disable_ints_user_mode_counterexample :
    (excep_disable_ints 0x10).2 = 0x10 ∧
    cpsr_I (excep_disable_ints 0x10).2 = 0 ∧ cpsr_F (excep_disable_ints 0x10).2 = 0 ∧
    ¬ ((excep_disable_ints 0x10).2 = 0x10 ||| 0xC0) := by
  decide

/-- C7 (code at the failing input): with the status register at `0x93`
(Supervisor mode, `I = 1`, `F = 0`) `excep_disable_irq` returns 1 and leaves
`0x93`; `excep_restore_irq` with that value then produces `0x53`, where the IRQ
mask bit is 0 instead of 1 and the FIQ mask bit is 1 instead of 0. -/
theorem excep_restore_irq_loses_irq_mask :
    excep_disable_irq 0x93 = (1, 0x93) ∧
    excep_restore_irq (excep_disable_irq 0x93).2 (excep_disable_irq 0x93).1 = 0x53 ∧
    cpsr_I 0x93 = 1 ∧ cpsr_F 0x93 = 0 ∧ cpsr_I 0x53 = 0 ∧ cpsr_F 0x53 = 1 := by
  decide

/-! ## gpio.c -/

/-- C5 (code at the failing input): pin 5 is high (`GPIO_DATA0 = 0x20`,
`GPIO_DATA1 = 0`).  When the caller's word holds 0 before the call,
`gpio_get_pin (5, out)` stores `0x20` (pin set); when it holds 32 the range
test on `*pin_data` selects port 1 and the call stores 0 (pin clear). -/
theorem gpio_get_pin_depends_on_out :
    gpio_get_pin gpio_pin5_high 5 0 = (gpio_err_t.gpio_no_error, 0x20) ∧
    gpio_get_pin gpio_pin5_high 5 32 = (gpio_err_t.gpio_no_error, 0) := by
  constructor <;> rfl

/-- C6 (code at the failing input): for pin 64 each of `gpio_set_pin`,
`gpio_clear_pin`, `gpio_set_pin_dir_input` and `gpio_set_pin_dir_output`
returns `gpio_no_error` and issues one store to a port-1 register. -/
theorem gpio_pin_ops_accept_pin_64 (g : Gpio) :
    (gpio_set_pin g 64).1 = gpio_err_t.gpio_no_error ∧
    (gpio_set_pin g 64).2.stores = g.stores ++ [(GpioReg.GPIO_DATA_SET1, 0)] ∧
    (gpio_clear_pin g 64).1 = gpio_err_t.gpio_no_error ∧
    (gpio_clear_pin g 64).2.stores = g.stores ++ [(GpioReg.GPIO_DATA_RESET1, 0)] ∧
    (gpio_set_pin_dir_input g 64).1 = gpio_err_t.gpio_no_error ∧
    (gpio_set_pin_dir_input g 64).2.stores = g.stores ++ [(GpioReg.GPIO_PAD_DIR_RESET1, 0)] ∧
    (gpio_set_pin_dir_output g 64).1 = gpio_err_t.gpio_no_error ∧
    (gpio_set_pin_dir_output g 64).2.stores = g.stores ++ [(GpioReg.GPIO_PAD_DIR_SET1, 0)] := by
  refine ⟨rfl, rfl, rfl, rfl, rfl, rfl, rfl, rfl⟩

theorem gpio_func_code_none {func : Nat} (h : 3 < func) : gpio_func_code func = none := by
  unfold gpio_func_code gpio_func_normal gpio_func_alternate_1 gpio_func_alternate_2
    gpio_func_alternate_3
  rw [if_neg (by omega), if_neg (by omega), if_neg (by omega), if_neg (by omega)]

/-- C10: for a port other than 0 and 1 every port operation returns
`gpio_invalid_parameter`, issues no store and changes no register, and
`gpio_get_port` leaves the caller's word as it was; for a function value that
is not one of the four codes `gpio_set_port_func` and `gpio_set_pin_func`
return `gpio_invalid_parameter` with the register block unchanged, whatever
the port or pin. -/
theorem gpio_port_ops_reject_invalid (g : Gpio) (port mask func port_data : Nat)
    (bad_func any_port any_pin : Nat)
    (h0 : port ≠ gpio_port_0) (h1 : port ≠ gpio_port_1) (hf : 3 < bad_func) :
    gpio_set_port_dir_input g port mask = (gpio_err_t.gpio_invalid_parameter, g) ∧
    gpio_set_port_dir_output g port mask = (gpio_err_t.gpio_invalid_parameter, g) ∧
    gpio_set_port g port mask = (gpio_err_t.gpio_invalid_parameter, g) ∧
    gpio_clear_port g port mask = (gpio_err_t.gpio_invalid_parameter, g) ∧
    gpio_get_port g port port_data = (gpio_err_t.gpio_invalid_parameter, port_data) ∧
    gpio_set_port_func g port func mask = (gpio_err_t.gpio_invalid_parameter, g) ∧
    gpio_set_port_func g any_port bad_func mask = (gpio_err_t.gpio_invalid_parameter, g) ∧
    gpio_set_pin_func g any_pin bad_func = (gpio_err_t.gpio_invalid_parameter, g) := by
  refine ⟨?_, ?_, ?_, ?_, ?_, ?_, ?_, ?_⟩
  · simp [gpio_set_port_dir_input, h0, h1]
  · simp [gpio_set_port_dir_output, h0, h1]
  · simp [gpio_set_port, h0, h1]
  · simp [gpio_clear_port, h0, h1]
  · simp [gpio_get_port, h0, h1]
  · unfold gpio_set_port_func
    cases gpio_func_code func <;> simp [h0, h1]
  · simp [gpio_set_port_func, gpio_func_code_none hf]
  · simp [gpio_set_pin_func, gpio_func_code_none hf]

/-- Witness for C10: port 2 and function value 4 on the all-zero register block. -/
theorem gpio_port_ops_reject_invalid_witness :
    2 ≠ gpio_port_0 ∧ 2 ≠ gpio_port_1 ∧ 3 < 4 ∧
    (gpio_set_port_dir_input gpio_reset 2 0xFF = (gpio_err_t.gpio_invalid_parameter, gpio_reset) ∧
    gpio_set_port_dir_output gpio_reset 2 0xFF = (gpio_err_t.gpio_invalid_parameter, gpio_reset) ∧
    gpio_set_port gpio_reset 2 0xFF = (gpio_err_t.gpio_invalid_parameter, gpio_reset) ∧
    gpio_clear_port gpio_reset 2 0xFF = (gpio_err_t.gpio_invalid_parameter, gpio_reset) ∧
    gpio_get_port gpio_reset 2 7 = (gpio_err_t.gpio_invalid_parameter, 7) ∧
    gpio_set_port_func gpio_reset 2 1 0xFF = (gpio_err_t.gpio_invalid_parameter, gpio_reset) ∧
    gpio_set_port_func gpio_reset 0 4 0xFF = (gpio_err_t.gpio_invalid_parameter, gpio_reset) ∧
    gpio_set_pin_func gpio_reset 3 4 = (gpio_err_t.gpio_invalid_parameter, gpio_reset)) :=
  ⟨by decide, by decide, by decide,
    gpio_port_ops_reject_invalid gpio_reset 2 0xFF 1 7 4 0 3 (by decide) (by decide) (by decide)⟩

/-! ## Bit-fields of the control register -/

theorem get_set_field_13 (w v : Nat) : get_field (set_field w 13 1 v) 13 1 = v % 2 := by
  simp only [get_field, set_field]
  norm_num
  omega

theorem get_set_field_14 (w v : Nat) : get_field (set_field w 14 1 v) 14 1 = v % 2 := by
  simp only [get_field, set_field]
  norm_num
  omega

theorem get_13_set_field_14 (w v : Nat) :
    get_field (set_field w 14 1 v) 13 1 = get_field w 13 1 := by
  simp only [get_field, set_field]
  norm_num
  omega

theorem get_14_set_field_13 (w v : Nat) :
    get_field (set_field w 13 1 v) 14 1 = get_field w 14 1 := by
  simp only [get_field, set_field]
  norm_num
  omega

theorem set_field_13_restore (w v : Nat) :
    set_field (set_field w 13 1 v) 13 1 (get_field w 13 1) = w := by
  simp only [get_field, set_field]
  norm_num
  omega

/-! ## circular_buffer -/

theorem mod_ne_of_lt {a b c : Nat} (hab : a < b) (hbc : b < a + c) : a % c ≠ b % c := by
  intro h
  have h0 : (b - a) % c = 0 := Nat.sub_mod_eq_zero_of_mod_eq h.symm
  rw [Nat.mod_eq_of_lt (by omega)] at h0
  omega

theorem contents_length (cb : circular_buffer_t) : cb.contents.length = cb.count := by
  simp [circular_buffer_t.contents]

theorem contents_of_count_zero (cb : circular_buffer_t) (h : cb.count = 0) :
    cb.contents = [] := by
  simp [circular_buffer_t.contents, h]

theorem circular_buffer_write_ok (cb : circular_buffer_t) (byte : Nat) (h : cb.WF)
    (hn : cb.count < cb.capacity) :
    ∃ cb', circular_buffer_write cb byte = .ok cb' ∧ cb'.WF ∧
      cb'.capacity = cb.capacity ∧ cb'.count = cb.count + 1 ∧
      cb'.contents = cb.contents ++ [byte % 256] := by
  obtain ⟨hlen, hcap, hrd, hcnt, hwr, hbytes⟩ := h
  have hfull : circular_buffer_is_full cb = false := by
    simp [circular_buffer_is_full]; omega
  refine ⟨{ cb with
    storage := cb.storage.set cb.wr (byte % 256)
    wr := (cb.wr + 1) % cb.capacity
    count := cb.count + 1 }, by simp [circular_buffer_write, hfull], ?_, rfl, rfl, ?_⟩
  · refine ⟨by simp [hlen], hcap, hrd, hn, ?_, ?_⟩
    · simp only [hwr]
      rw [Nat.mod_add_mod, Nat.add_assoc]
    · intro x hx
      rcases List.mem_or_eq_of_mem_set hx with hx | hx
      · exact hbytes x hx
      · rw [hx]; exact Nat.mod_lt _ (by decide)
  · simp only [circular_buffer_t.contents, List.range_succ, List.map_append, List.map_cons,
      List.map_nil]
    congr 1
    · apply List.map_congr_left
      intro k hk
      rw [List.mem_range] at hk
      have hne : cb.wr ≠ (cb.rd + k) % cb.capacity := by
        rw [hwr]; exact (mod_ne_of_lt (by omega) (by omega)).symm
      rw [List.getD_eq_getElem?_getD, List.getD_eq_getElem?_getD, List.getElem?_set_ne hne]
    · have hw : cb.wr < cb.storage.length := by
        rw [hlen, hwr]; exact Nat.mod_lt _ hcap
      rw [← hwr, List.getD_eq_getElem?_getD, List.getElem?_set_self hw]
      rfl

theorem circular_buffer_read_ok (cb : circular_buffer_t) (h : cb.WF) (hn : 0 < cb.count) :
    ∃ x cb', circular_buffer_read cb = .ok (x, cb') ∧ cb'.WF ∧
      cb'.capacity = cb.capacity ∧ cb'.count = cb.count - 1 ∧
      cb.contents = x :: cb'.contents ∧ x < 256 := by
  obtain ⟨hlen, hcap, hrd, hcnt, hwr, hbytes⟩ := h
  have hempty : circular_buffer_is_empty cb = false := by
    simp [circular_buffer_is_empty]; omega
  refine ⟨cb.storage.getD cb.rd 0,
    { cb with rd := (cb.rd + 1) % cb.capacity, count := cb.count - 1 },
    by simp [circular_buffer_read, hempty], ?_, rfl, rfl, ?_, ?_⟩
  · refine ⟨hlen, hcap, Nat.mod_lt _ hcap, by simp; omega, ?_, hbytes⟩
    simp only [hwr]
    rw [Nat.mod_add_mod]
    congr 1; omega
  · obtain ⟨n, hn'⟩ : ∃ n, cb.count = n + 1 := ⟨cb.count - 1, by omega⟩
    simp only [circular_buffer_t.contents, hn', List.range_succ_eq_map, List.map_cons,
      List.map_map, Nat.add_sub_cancel]
    congr 1
    · simp [Nat.mod_eq_of_lt hrd]
    · apply List.map_congr_left
      intro k _
      simp only [Function.comp, Nat.succ_eq_add_one]
      rw [Nat.mod_add_mod]
      congr 2; omega
  · have hr : cb.rd < cb.storage.length := by omega
    rw [List.getD_eq_getElem?_getD, List.getElem?_eq_getElem hr]
    exact hbytes _ (List.getElem_mem hr)

/-! ## uart.c : the loops -/

theorem except_bind_ok {α β : Type} (a : α) (f : α → Except Fault β) :
    (Except.ok a >>= f) = f a := rfl

theorem uart_set_uart (s : System) (uart : Nat) (u : UartInst) :
    (s.set_uart uart u).uart uart = u := by
  unfold System.set_uart System.uart
  split <;> simp [*]

theorem uart_send_loop_ok (buf : Nat → Nat) :
    ∀ (k i : Nat) (cb : circular_buffer_t), cb.WF →
      ∃ cb', uart_send_loop buf k i cb = .ok (i + min k cb.free, cb') ∧ cb'.WF ∧
        cb'.capacity = cb.capacity ∧ cb'.count = cb.count + min k cb.free ∧
        cb'.contents = cb.contents ++
          (List.range (min k cb.free)).map (fun j => buf (i + j) % 256) := by
  intro k
  induction k with
  | zero =>
    intro i cb h
    exact ⟨cb, by simp [uart_send_loop], h, rfl, by simp, by simp⟩
  | succ k ih =>
    intro i cb h
    by_cases hfull : cb.count = cb.capacity
    · have hf : cb.free = 0 := by simp [circular_buffer_t.free, hfull]
      exact ⟨cb, by simp [uart_send_loop, circular_buffer_is_full, hfull, hf], h, rfl,
        by simp [hf], by simp [hf]⟩
    · have hlt : cb.count < cb.capacity := lt_of_le_of_ne h.2.2.2.1 hfull
      obtain ⟨cb1, hw, hwf1, hcap1, hcnt1, hcont1⟩ := circular_buffer_write_ok cb (buf i) h hlt
      obtain ⟨cb', hl, hwf', hcap', hcnt', hcont'⟩ := ih (i + 1) cb1 hwf1
      have hfree : cb1.free = cb.free - 1 := by
        simp only [circular_buffer_t.free, hcap1, hcnt1]; omega
      have hmin : min (k + 1) cb.free = min k cb1.free + 1 := by
        rw [hfree]; simp only [circular_buffer_t.free]; omega
      refine ⟨cb', ?_, hwf', by rw [hcap', hcap1], by rw [hcnt', hcnt1, hmin]; omega, ?_⟩
      · have hb : (!circular_buffer_is_full cb) = true := by
          simp [circular_buffer_is_full, hfull]
        rw [uart_send_loop, if_pos hb, hw, except_bind_ok, hl, hmin,
          show i + 1 + min k cb1.free = i + (min k cb1.free + 1) by omega]
      · rw [hcont', hcont1, hmin, List.range_succ_eq_map, List.map_cons, List.map_map,
          List.append_assoc]
        congr 1
        simp only [List.singleton_append, Nat.add_zero, List.cons.injEq, true_and]
        apply List.map_congr_left
        intro j _
        simp only [Function.comp, Nat.succ_eq_add_one]
        congr 2; omega

theorem uart_receive_loop_ok :
    ∀ (k i : Nat) (buf : Nat → Nat) (cb : circular_buffer_t), cb.WF →
      ∃ buf' cb', uart_receive_loop k i buf cb = .ok (i + min k cb.count, buf', cb') ∧
        cb'.WF ∧ cb'.capacity = cb.capacity ∧ cb'.count = cb.count - min k cb.count ∧
        cb'.contents = cb.contents.drop (min k cb.count) ∧
        (List.range (min k cb.count)).map (fun j => buf' (i + j)) =
          cb.contents.take (min k cb.count) ∧
        ∀ x, x < i ∨ i + min k cb.count ≤ x → buf' x = buf x := by
  intro k
  induction k with
  | zero =>
    intro i buf cb h
    exact ⟨buf, cb, by simp [uart_receive_loop], h, rfl, by simp, by simp, by simp,
      fun _ _ => rfl⟩
  | succ k ih =>
    intro i buf cb h
    by_cases hempty : cb.count = 0
    · exact ⟨buf, cb, by simp [uart_receive_loop, circular_buffer_is_empty, hempty], h, rfl,
        by simp [hempty], by simp [hempty], by simp [hempty], fun _ _ => rfl⟩
    · have hpos : 0 < cb.count := Nat.pos_of_ne_zero hempty
      obtain ⟨x, cb1, hr, hwf1, hcap1, hcnt1, hcont1, -⟩ := circular_buffer_read_ok cb h hpos
      obtain ⟨buf', cb', hl, hwf', hcap', hcnt', hcont', htake', hframe'⟩ :=
        ih (i + 1) (Function.update buf i x) cb1 hwf1
      have hmin : min (k + 1) cb.count = min k cb1.count + 1 := by
        rw [hcnt1]; omega
      have hb : (!circular_buffer_is_empty cb) = true := by
        simp [circular_buffer_is_empty, hempty]
      refine ⟨buf', cb', ?_, hwf', by rw [hcap', hcap1], by rw [hcnt', hcnt1, hmin]; omega,
        ?_, ?_, ?_⟩
      · rw [uart_receive_loop, if_pos hb, hr, except_bind_ok, hl, hmin,
          show i + 1 + min k cb1.count = i + (min k cb1.count + 1) by omega]
      · rw [hcont', hcont1, hmin, List.drop_succ_cons]
      · have hi : buf' i = x := by
          rw [hframe' i (Or.inl (by omega))]; simp
        rw [hmin, hcont1, List.take_succ_cons, ← htake', List.range_succ_eq_map, List.map_cons,
          List.map_map]
        simp only [Nat.add_zero, hi, List.cons.injEq, true_and]
        apply List.map_congr_left
        intro j _
        simp only [Function.comp, Nat.succ_eq_add_one]
        congr 1; omega
      · intro y hy
        rw [hmin] at hy
        rw [hframe' y (by omega)]
        have hne : y ≠ i := by omega
        simp [Function.update, hne]

theorem tx_fifo_wait_ok (fuel : Nat) (u : UartInst) (hf : 0 < fuel)
    (h : u.tx_space u.tx_polls % 64 ≠ 0) :
    tx_fifo_wait fuel u = .ok { u with tx_polls := u.tx_polls + 1 } := by
  obtain ⟨f, rfl⟩ : ∃ f, fuel = f + 1 := ⟨fuel - 1, by omega⟩
  simp [tx_fifo_wait, UartInst.read_Tx_fifo_addr_diff, h]

theorem uart_send_byte_drain_ok (fuel : Nat) (hf : 0 < fuel) :
    ∀ (n : Nat) (u : UartInst), u.tx_buffer.WF → u.tx_buffer.count = n →
      (∀ k, u.tx_space k % 64 ≠ 0) →
      ∃ cb', uart_send_byte_drain fuel n u =
          .ok { u with tx_polls := u.tx_polls + n,
                       tx_sent := u.tx_sent ++ u.tx_buffer.contents,
                       tx_buffer := cb' } ∧
        cb'.WF ∧ cb'.count = 0 ∧ cb'.capacity = u.tx_buffer.capacity := by
  intro n
  induction n with
  | zero =>
    intro u h hc _
    refine ⟨u.tx_buffer, ?_, h, hc, rfl⟩
    simp [uart_send_byte_drain, circular_buffer_is_empty, hc, contents_of_count_zero]
  | succ n ih =>
    intro u h hc hs
    have hb : (!circular_buffer_is_empty u.tx_buffer) = true := by
      simp [circular_buffer_is_empty, hc]
    obtain ⟨x, cb1, hr, hwf1, hcap1, hcnt1, hcont1, hx⟩ :=
      circular_buffer_read_ok u.tx_buffer h (by omega)
    obtain ⟨cb', hl, hwf', hcnt', hcap'⟩ :=
      ih ({ { u with tx_polls := u.tx_polls + 1 } with tx_buffer := cb1 }.write_Tx_data x)
        hwf1 (by simp [UartInst.write_Tx_data, hcnt1, hc]) hs
    refine ⟨cb', ?_, hwf', hcnt', by rw [hcap']; exact hcap1⟩
    rw [uart_send_byte_drain, if_pos hb, tx_fifo_wait_ok fuel u hf (hs _), except_bind_ok]
    simp only [hr, except_bind_ok, hl]
    simp [UartInst.write_Tx_data, hcont1, Nat.mod_eq_of_lt hx, Nat.add_assoc, Nat.add_comm 1 n]

theorem uart_isr_tx_loop_ok :
    ∀ (n : Nat) (u : UartInst), u.tx_buffer.WF → u.tx_buffer.count = n →
      (∀ k, k < n → u.tx_space (u.tx_polls + k) % 64 ≠ 0) →
      ∃ cb', uart_isr_tx_loop n u =
          .ok { u with tx_polls := u.tx_polls + n,
                       tx_sent := u.tx_sent ++ u.tx_buffer.contents,
                       tx_buffer := cb' } ∧
        cb'.WF ∧ cb'.count = 0 ∧ cb'.capacity = u.tx_buffer.capacity := by
  intro n
  induction n with
  | zero =>
    intro u h hc _
    refine ⟨u.tx_buffer, ?_, h, hc, rfl⟩
    simp [uart_isr_tx_loop, circular_buffer_is_empty, hc, contents_of_count_zero]
  | succ n ih =>
    intro u h hc hs
    have hb : (!circular_buffer_is_empty u.tx_buffer) = true := by
      simp [circular_buffer_is_empty, hc]
    have hp : u.read_Tx_fifo_addr_diff.1 ≠ 0 := by
      have := hs 0 (by omega)
      simpa [UartInst.read_Tx_fifo_addr_diff] using this
    obtain ⟨x, cb1, hr, hwf1, hcap1, hcnt1, hcont1, hx⟩ :=
      circular_buffer_read_ok u.tx_buffer h (by omega)
    obtain ⟨cb', hl, hwf', hcnt', hcap'⟩ :=
      ih ({ u.read_Tx_fifo_addr_diff.2 with tx_buffer := cb1 }.write_Tx_data x)
        hwf1 (by simp [UartInst.write_Tx_data, hcnt1, hc])
        (by
          intro k hk
          have := hs (k + 1) (by omega)
          simpa [UartInst.write_Tx_data, UartInst.read_Tx_fifo_addr_diff, Nat.add_assoc,
            Nat.add_comm 1 k] using this)
    refine ⟨cb', ?_, hwf', hcnt', by rw [hcap']; exact hcap1⟩
    rw [uart_isr_tx_loop, if_pos hb, if_pos hp]
    have hr' : circular_buffer_read u.read_Tx_fifo_addr_diff.2.tx_buffer = .ok (x, cb1) := hr
    simp only [hr', except_bind_ok, hl]
    simp [UartInst.write_Tx_data, UartInst.read_Tx_fifo_addr_diff, hcont1,
      Nat.mod_eq_of_lt hx, Nat.add_assoc, Nat.add_comm 1 n]

theorem uart_isr_rx_loop_frame :
    ∀ (n : Nat) (u : UartInst), u.rx_fifo.length ≤ n →
      ∃ fifo' cb', uart_isr_rx_loop n u = .ok { u with rx_fifo := fifo', rx_buffer := cb' } := by
  intro n
  induction n with
  | zero =>
    intro u h
    have h0 : u.Rx_fifo_addr_diff = 0 := by
      simp only [UartInst.Rx_fifo_addr_diff]; omega
    exact ⟨u.rx_fifo, u.rx_buffer, by simp [uart_isr_rx_loop, h0]⟩
  | succ n ih =>
    intro u h
    by_cases hc : (!circular_buffer_is_full u.rx_buffer) = true ∧ u.Rx_fifo_addr_diff ≠ 0
    · have hfull : circular_buffer_is_full u.rx_buffer = false := by simpa using hc.1
      have hlen : u.rx_fifo.tail.length ≤ n := by
        simp only [List.length_tail]; omega
      obtain ⟨fifo', cb', hl⟩ := ih { u.read_Rx_data.2 with
        rx_buffer := { u.rx_buffer with
          storage := u.rx_buffer.storage.set u.rx_buffer.wr (u.read_Rx_data.1 % 256)
          wr := (u.rx_buffer.wr + 1) % u.rx_buffer.capacity
          count := u.rx_buffer.count + 1 } } hlen
      refine ⟨fifo', cb', ?_⟩
      rw [uart_isr_rx_loop, if_pos hc]
      simp only [circular_buffer_write, hfull, Bool.false_eq_true, if_false, except_bind_ok, hl]
      rfl
    · exact ⟨u.rx_fifo, u.rx_buffer, by rw [uart_isr_rx_loop, if_neg hc]⟩

theorem uart_isr_rx_frame (u : UartInst) (ev : List Event) :
    ∃ u' ev', uart_isr_rx u ev = .ok (u', ev') ∧ u'.tx_buffer = u.tx_buffer ∧
      u'.tx_space = u.tx_space ∧ u'.tx_polls = u.tx_polls ∧ u'.tx_sent = u.tx_sent ∧
      get_field u'.STAT 7 1 = get_field u.STAT 7 1 ∧ u'.callbacks = u.callbacks := by
  have hstat : get_field (u.STAT - u.STAT % 64) 7 1 = get_field u.STAT 7 1 := by
    simp only [get_field]; norm_num; omega
  unfold uart_isr_rx
  split
  · obtain ⟨fifo', cb', hl⟩ := uart_isr_rx_loop_frame u.read_RxRdy.2.rx_fifo.length
      u.read_RxRdy.2 (le_refl _)
    rw [hl, except_bind_ok]
    refine ⟨_, _, rfl, ?_⟩
    split <;> exact ⟨rfl, rfl, rfl, rfl, hstat, rfl⟩
  · exact ⟨_, _, rfl, rfl, rfl, rfl, rfl, hstat, rfl⟩

theorem uart_isr_tx_ok (u : UartInst) (ev : List Event) (hwf : u.tx_buffer.WF)
    (htx : get_field u.STAT 7 1 ≠ 0)
    (hs : ∀ k, k < u.tx_buffer.count → u.tx_space (u.tx_polls + k) % 64 ≠ 0) :
    ∃ u' ev', uart_isr_tx u ev = .ok (u', ev') ∧
      u'.tx_sent = u.tx_sent ++ u.tx_buffer.contents ∧ u'.tx_buffer.WF ∧
      u'.tx_buffer.count = 0 ∧ u'.mTxR = 1 := by
  have hrdy : u.read_TxRdy.1 ≠ 0 := htx
  obtain ⟨cb', hl, hwf', hcnt', -⟩ :=
    uart_isr_tx_loop_ok u.read_TxRdy.2.tx_buffer.count u.read_TxRdy.2 hwf rfl hs
  have he : circular_buffer_is_empty cb' = true := by
    simp [circular_buffer_is_empty, hcnt']
  unfold uart_isr_tx
  rw [if_pos hrdy, hl, except_bind_ok]
  simp only [he, if_true]
  exact ⟨_, _, rfl, rfl, hwf', hcnt', get_set_field_13 _ 1⟩

/-! ## uart.c : the entry points -/

theorem to_ssize_t_small {n : Nat} (h : n ≤ 256) : to_ssize_t n = (n : Int) := by
  unfold to_ssize_t
  have h1 : n % 2 ^ 32 = n := Nat.mod_eq_of_lt (by omega)
  rw [h1, if_pos (by omega)]

/-- C1: for an instance id in {0,1}, a non-null buffer and any count, on an
initialised tx ring `uart_send` returns `n = min count free`, where `free` is
the number of free slots of the tx ring, appends exactly `buf[0..n)` (each
`char` converted to a byte) to the ring contents in order, and leaves
`mTxR = 0`; so a count above the free space returns strictly less than count. -/
theorem uart_send_enqueues (s : System) (uart : Nat) (buf : Nat → Nat) (count : Nat)
    (hid : uart ≤ 1) (hwf : (s.uart uart).tx_buffer.WF)
    (hcap : (s.uart uart).tx_buffer.capacity = UART_BUFFER_SIZE) :
    ∃ s', uart_send s uart (some buf) count =
        .ok (s', ((min count (s.uart uart).tx_buffer.free : Nat) : Int)) ∧
      (s'.uart uart).tx_buffer.contents = (s.uart uart).tx_buffer.contents ++
        (List.range (min count (s.uart uart).tx_buffer.free)).map (fun i => buf i % 256) ∧
      (s'.uart uart).tx_buffer.WF ∧
      (s'.uart uart).mTxR = 0 ∧
      ((s.uart uart).tx_buffer.free < count →
        min count (s.uart uart).tx_buffer.free < count) := by
  obtain ⟨cb', hl, hwf', -, -, hcont'⟩ := uart_send_loop_ok buf count 0 (s.uart uart).tx_buffer hwf
  have hle : min count (s.uart uart).tx_buffer.free ≤ 256 := by
    have : (s.uart uart).tx_buffer.free ≤ 256 := by
      simp only [circular_buffer_t.free, hcap, UART_BUFFER_SIZE]; omega
    omega
  have hgt : ¬ uart > uart_2 := by simp only [uart_2]; omega
  refine ⟨s.set_uart uart ({ (s.uart uart).set_mTxR 1 with tx_buffer := cb' }.set_mTxR 0),
    ?_, ?_, ?_, ?_, ?_⟩
  · unfold uart_send
    rw [if_neg hgt]
    simp only [Nat.not_lt_zero, if_false]
    have hl' : uart_send_loop buf count 0 ((s.uart uart).set_mTxR 1).tx_buffer =
        .ok (0 + min count (s.uart uart).tx_buffer.free, cb') := hl
    rw [hl', except_bind_ok]
    simp only [Nat.zero_add, to_ssize_t_small hle]
  · rw [uart_set_uart]
    simpa using hcont'
  · rw [uart_set_uart]; exact hwf'
  · rw [uart_set_uart]; exact get_set_field_13 _ 0
  · intro h; omega

set_option maxRecDepth 100000 in
/-- Witness for C1: `send (0, "AB", 2)` on the idle system, whose tx ring is
empty. -/
theorem uart_send_enqueues_witness :
    0 ≤ 1 ∧ (sys_idle.uart 0).tx_buffer.WF ∧
    (sys_idle.uart 0).tx_buffer.capacity = UART_BUFFER_SIZE ∧
    ∃ s', uart_send sys_idle 0 (some buf_AB) 2 =
        .ok (s', ((min 2 (sys_idle.uart 0).tx_buffer.free : Nat) : Int)) ∧
      (s'.uart 0).tx_buffer.contents = (sys_idle.uart 0).tx_buffer.contents ++
        (List.range (min 2 (sys_idle.uart 0).tx_buffer.free)).map (fun i => buf_AB i % 256) ∧
      (s'.uart 0).tx_buffer.WF ∧
      (s'.uart 0).mTxR = 0 ∧
      ((sys_idle.uart 0).tx_buffer.free < 2 →
        min 2 (sys_idle.uart 0).tx_buffer.free < 2) :=
  ⟨by decide, by decide, rfl, uart_send_enqueues sys_idle 0 buf_AB 2 (by decide) (by decide) rfl⟩

/-- C2: for an instance id in {0,1}, a non-null buffer and any count, on an
initialised rx ring `uart_receive` returns `n = min count held`, where `held`
is the number of bytes in the rx ring, stores the `n` oldest bytes in
`buf[0..n)` in arrival order and leaves the rest of `buf` as it was, removes
exactly those bytes from the ring, and leaves `mRxR = 0`; on an empty ring it
returns 0 and `buf` is unchanged. -/
theorem uart_receive_dequeues (s : System) (uart : Nat) (buf : Nat → Nat) (count : Nat)
    (hid : uart ≤ 1) (hwf : (s.uart uart).rx_buffer.WF)
    (hcap : (s.uart uart).rx_buffer.capacity = UART_BUFFER_SIZE) :
    ∃ s' buf', uart_receive s uart (some buf) count =
        .ok (s', some buf', ((min count (s.uart uart).rx_buffer.count : Nat) : Int)) ∧
      (List.range (min count (s.uart uart).rx_buffer.count)).map buf' =
        (s.uart uart).rx_buffer.contents.take (min count (s.uart uart).rx_buffer.count) ∧
      (∀ x, min count (s.uart uart).rx_buffer.count ≤ x → buf' x = buf x) ∧
      (s'.uart uart).rx_buffer.contents =
        (s.uart uart).rx_buffer.contents.drop (min count (s.uart uart).rx_buffer.count) ∧
      (s'.uart uart).rx_buffer.WF ∧
      (s'.uart uart).mRxR = 0 ∧
      ((s.uart uart).rx_buffer.count = 0 →
        min count (s.uart uart).rx_buffer.count = 0 ∧ buf' = buf) := by
  obtain ⟨buf', cb', hl, hwf', -, -, hcont', htake', hframe'⟩ :=
    uart_receive_loop_ok count 0 buf (s.uart uart).rx_buffer hwf
  have hle : min count (s.uart uart).rx_buffer.count ≤ 256 := by
    have : (s.uart uart).rx_buffer.count ≤ 256 := by
      have := hwf.2.2.2.1
      rw [hcap] at this; exact this
    omega
  have hgt : ¬ uart > uart_2 := by simp only [uart_2]; omega
  refine ⟨s.set_uart uart ({ (s.uart uart).set_mRxR 1 with rx_buffer := cb' }.set_mRxR 0),
    buf', ?_, ?_, ?_, ?_, ?_, ?_, ?_⟩
  · unfold uart_receive
    rw [if_neg hgt]
    simp only [Nat.not_lt_zero, if_false]
    have hl' : uart_receive_loop count 0 buf ((s.uart uart).set_mRxR 1).rx_buffer =
        .ok (0 + min count (s.uart uart).rx_buffer.count, buf', cb') := hl
    rw [hl', except_bind_ok]
    simp only [Nat.zero_add, to_ssize_t_small hle]
  · simpa using htake'
  · intro x hx
    exact hframe' x (Or.inr (by omega))
  · rw [uart_set_uart]; exact hcont'
  · rw [uart_set_uart]; exact hwf'
  · rw [uart_set_uart]; exact get_set_field_14 _ 0
  · intro h0
    refine ⟨by omega, ?_⟩
    funext x
    exact hframe' x (Or.inr (by omega))

set_option maxRecDepth 100000 in
/-- Witness for C2: `receive (0, buf, 10)` with the two bytes "Hi" in the rx ring. -/
theorem uart_receive_dequeues_witness :
    0 ≤ 1 ∧ (sys_busy.uart 0).rx_buffer.WF ∧
    (sys_busy.uart 0).rx_buffer.capacity = UART_BUFFER_SIZE ∧
    ∃ s' buf', uart_receive sys_busy 0 (some buf_zero) 10 =
        .ok (s', some buf', ((min 10 (sys_busy.uart 0).rx_buffer.count : Nat) : Int)) ∧
      (List.range (min 10 (sys_busy.uart 0).rx_buffer.count)).map buf' =
        (sys_busy.uart 0).rx_buffer.contents.take (min 10 (sys_busy.uart 0).rx_buffer.count) ∧
      (∀ x, min 10 (sys_busy.uart 0).rx_buffer.count ≤ x → buf' x = buf_zero x) ∧
      (s'.uart 0).rx_buffer.contents =
        (sys_busy.uart 0).rx_buffer.contents.drop (min 10 (sys_busy.uart 0).rx_buffer.count) ∧
      (s'.uart 0).rx_buffer.WF ∧
      (s'.uart 0).mRxR = 0 ∧
      ((sys_busy.uart 0).rx_buffer.count = 0 →
        min 10 (sys_busy.uart 0).rx_buffer.count = 0 ∧ buf' = buf_zero) :=
  ⟨by decide, by decide, rfl,
    uart_receive_dequeues sys_busy 0 buf_zero 10 (by decide) (by decide) rfl⟩

/-- C3: for an instance id in {0,1}, any byte `c` and any content of an
initialised tx ring, when the transmit FIFO reports free space at every poll
(so that one poll per busy-wait is enough), `uart_send_byte` returns, has
written to `Tx_data` exactly the queued bytes, oldest first, followed by `c`
as the last write, leaves the tx ring empty, and leaves `mTxR` (indeed the
whole control register) at the value it had before the call. -/
theorem uart_send_byte_flushes (fuel : Nat) (s : System) (uart c : Nat)
    (hid : uart ≤ 1) (hfuel : 0 < fuel) (hwf : (s.uart uart).tx_buffer.WF)
    (hspace : ∀ k, (s.uart uart).tx_space k % 64 ≠ 0) :
    ∃ s', uart_send_byte fuel s uart c = .ok s' ∧
      (s'.uart uart).tx_sent =
        (s.uart uart).tx_sent ++ (s.uart uart).tx_buffer.contents ++ [c % 256] ∧
      (s'.uart uart).tx_buffer.contents = [] ∧
      circular_buffer_is_empty (s'.uart uart).tx_buffer = true ∧
      (s'.uart uart).mTxR = (s.uart uart).mTxR ∧
      (s'.uart uart).CON = (s.uart uart).CON := by
  have hge : ¬ uart ≥ uart_max := by simp only [uart_max]; omega
  obtain ⟨cb', hd, hwf', hcnt', -⟩ :=
    uart_send_byte_drain_ok fuel hfuel ((s.uart uart).set_mTxR 1).tx_buffer.count
      ((s.uart uart).set_mTxR 1) hwf rfl hspace
  unfold uart_send_byte
  rw [if_neg hge]
  simp only [hd, except_bind_ok]
  have hw : ∀ u : UartInst, u.tx_space = (s.uart uart).tx_space →
      tx_fifo_wait fuel u = .ok { u with tx_polls := u.tx_polls + 1 } :=
    fun u hu => tx_fifo_wait_ok fuel u hfuel (by rw [hu]; exact hspace _)
  rw [hw _ (by rfl), except_bind_ok]
  refine ⟨_, rfl, ?_, ?_, ?_, ?_, ?_⟩
  · rw [uart_set_uart]; rfl
  · rw [uart_set_uart]; exact contents_of_count_zero cb' hcnt'
  · rw [uart_set_uart]
    simp only [circular_buffer_is_empty, UartInst.set_mTxR, UartInst.write_Tx_data, hcnt']
    rfl
  · rw [uart_set_uart]
    simp only [UartInst.mTxR, UartInst.set_mTxR, UartInst.write_Tx_data]
    rw [get_set_field_13, get_field]
    norm_num
  · rw [uart_set_uart]
    simp only [UartInst.mTxR, UartInst.set_mTxR, UartInst.write_Tx_data]
    exact set_field_13_restore _ 1

set_option maxRecDepth 100000 in
/-- Witness for C3: sending `'!'` on instance 0 while "ok" is still queued. -/
theorem uart_send_byte_flushes_witness :
    0 ≤ 1 ∧ 0 < 1 ∧ (sys_busy.uart 0).tx_buffer.WF ∧
    (∀ k, (sys_busy.uart 0).tx_space k % 64 ≠ 0) ∧
    ∃ s', uart_send_byte 1 sys_busy 0 33 = .ok s' ∧
      (s'.uart 0).tx_sent =
        (sys_busy.uart 0).tx_sent ++ (sys_busy.uart 0).tx_buffer.contents ++ [33 % 256] ∧
      (s'.uart 0).tx_buffer.contents = [] ∧
      circular_buffer_is_empty (s'.uart 0).tx_buffer = true ∧
      (s'.uart 0).mTxR = (sys_busy.uart 0).mTxR ∧
      (s'.uart 0).CON = (sys_busy.uart 0).CON :=
  ⟨by decide, by decide, by decide, fun _ => show 1 % 64 ≠ 0 by decide,
    uart_send_byte_flushes 1 sys_busy 0 33 (by decide) (by decide) (by decide)
      (fun _ => show 1 % 64 ≠ 0 by decide)⟩

theorem events_set_uart (s : System) (uart : Nat) (u : UartInst) :
    (s.set_uart uart u).events = s.events := by
  unfold System.set_uart
  split <;> rfl

theorem uart_send_fits (s : System) (uart : Nat) (buf : Nat → Nat) (n : Nat)
    (hid : uart ≤ 1) (hwf : (s.uart uart).tx_buffer.WF)
    (hcap : (s.uart uart).tx_buffer.capacity = UART_BUFFER_SIZE)
    (hn : n ≤ (s.uart uart).tx_buffer.free) :
    ∃ u1, uart_send s uart (some buf) n = .ok (s.set_uart uart u1, (n : Int)) ∧
      u1.tx_buffer.WF ∧ u1.tx_buffer.count = (s.uart uart).tx_buffer.count + n ∧
      u1.tx_buffer.contents = (s.uart uart).tx_buffer.contents ++
        (List.range n).map (fun i => buf i % 256) ∧
      u1.tx_space = (s.uart uart).tx_space ∧ u1.tx_polls = (s.uart uart).tx_polls ∧
      u1.tx_sent = (s.uart uart).tx_sent ∧ u1.STAT = (s.uart uart).STAT ∧
      u1.callbacks = (s.uart uart).callbacks := by
  obtain ⟨cb', hl, hwf', -, hcnt', hcont'⟩ :=
    uart_send_loop_ok buf n 0 (s.uart uart).tx_buffer hwf
  have hmin : min n (s.uart uart).tx_buffer.free = n := Nat.min_eq_left hn
  rw [hmin] at hl hcnt' hcont'
  have hle : n ≤ 256 := by
    have : (s.uart uart).tx_buffer.free ≤ 256 := by
      simp only [circular_buffer_t.free, hcap, UART_BUFFER_SIZE]; omega
    omega
  have hgt : ¬ uart > uart_2 := by simp only [uart_2]; omega
  refine ⟨{ (s.uart uart).set_mTxR 1 with tx_buffer := cb' }.set_mTxR 0, ?_, hwf', hcnt',
    by simpa using hcont', rfl, rfl, rfl, rfl, rfl⟩
  unfold uart_send
  rw [if_neg hgt]
  simp only [Nat.not_lt_zero, if_false]
  have hl' : uart_send_loop buf n 0 ((s.uart uart).set_mTxR 1).tx_buffer =
      .ok (0 + n, cb') := hl
  rw [hl', except_bind_ok]
  simp only [Nat.zero_add, to_ssize_t_small hle]

theorem uart_isr_tx_callbacks (u : UartInst) (ev : List Event) (u' : UartInst)
    (ev' : List Event) (hwf : u.tx_buffer.WF)
    (hs : ∀ k, k < u.tx_buffer.count → u.tx_space (u.tx_polls + k) % 64 ≠ 0)
    (h : uart_isr_tx u ev = .ok (u', ev')) : u'.callbacks = u.callbacks := by
  unfold uart_isr_tx at h
  split at h
  · obtain ⟨cb2, hl2, -, -, -⟩ :=
      uart_isr_tx_loop_ok u.read_TxRdy.2.tx_buffer.count u.read_TxRdy.2 hwf rfl hs
    rw [hl2, except_bind_ok] at h
    simp only [Except.ok.injEq, Prod.mk.injEq] at h
    rw [← h.1]
    split <;> rfl
  · simp only [Except.ok.injEq, Prod.mk.injEq] at h
    rw [← h.1]; rfl

/-- C4: for an instance id in {0,1} and `n` bytes that fit the free space of
an empty, initialised tx ring: `uart_send` enqueues all `n` bytes, and when
the ISR then runs with `TxRdy` set, no tx callback registered and the FIFO
reporting space at each of its next `n` polls, the bytes written to `Tx_data`
are exactly that sequence in its original order, the tx ring is empty, and
`mTxR = 1`. -/
theorem uart_send_then_isr_drains (s : System) (uart : Nat) (buf : Nat → Nat) (n : Nat)
    (hid : uart ≤ 1) (hwf : (s.uart uart).tx_buffer.WF)
    (hcap : (s.uart uart).tx_buffer.capacity = UART_BUFFER_SIZE)
    (hempty : (s.uart uart).tx_buffer.count = 0)
    (hn : n ≤ (s.uart uart).tx_buffer.free)
    (htx : get_field (s.uart uart).STAT 7 1 ≠ 0)
    (hcb : (s.uart uart).callbacks.tx_callback = none)
    (hspace : ∀ k, k < n → (s.uart uart).tx_space ((s.uart uart).tx_polls + k) % 64 ≠ 0) :
    ∃ s1 s2, uart_send s uart (some buf) n = .ok (s1, (n : Int)) ∧
      uart_isr s1 uart = .ok s2 ∧
      (s2.uart uart).tx_sent =
        (s.uart uart).tx_sent ++ (List.range n).map (fun i => buf i % 256) ∧
      (s2.uart uart).tx_buffer.contents = [] ∧
      circular_buffer_is_empty (s2.uart uart).tx_buffer = true ∧
      (s2.uart uart).mTxR = 1 ∧
      (s2.uart uart).callbacks.tx_callback = none := by
  obtain ⟨u1, hsend, hwf1, hcnt1, hcont1, hsp1, hpo1, hse1, hst1, hcb1⟩ :=
    uart_send_fits s uart buf n hid hwf hcap hn
  rw [hempty, Nat.zero_add] at hcnt1
  rw [contents_of_count_zero _ hempty, List.nil_append] at hcont1
  have hge : ¬ uart ≥ uart_max := by simp only [uart_max]; omega
  obtain ⟨u', ev', hrx, htb0, hsp0, hpo0, hse0, hst0, hcbs0⟩ :=
    uart_isr_rx_frame u1.read_STAT.2 s.events
  have htb : u'.tx_buffer = u1.tx_buffer := htb0
  have hsp : u'.tx_space = (s.uart uart).tx_space := hsp0.trans hsp1
  have hpo : u'.tx_polls = (s.uart uart).tx_polls := hpo0.trans hpo1
  have hse : u'.tx_sent = (s.uart uart).tx_sent := hse0.trans hse1
  have hcbs : u'.callbacks = (s.uart uart).callbacks := hcbs0.trans hcb1
  have hst : get_field u'.STAT 7 1 = get_field (s.uart uart).STAT 7 1 := by
    rw [hst0]
    simp only [UartInst.read_STAT, get_field, hst1]; norm_num; omega
  have hs' : ∀ k, k < u'.tx_buffer.count → u'.tx_space (u'.tx_polls + k) % 64 ≠ 0 := by
    intro k hk
    rw [htb, hcnt1] at hk
    rw [hsp, hpo]
    exact hspace k hk
  have hwf' : u'.tx_buffer.WF := by rw [htb]; exact hwf1
  obtain ⟨u'', ev'', htxr, hsent, -, hcnt'', hm⟩ :=
    uart_isr_tx_ok u' ev' hwf' (by rw [hst]; exact htx) hs'
  have hcb'' : u''.callbacks = u'.callbacks :=
    uart_isr_tx_callbacks u' ev' u'' ev'' hwf' hs' htxr
  refine ⟨s.set_uart uart u1, { s.set_uart uart u1 with events := ev'' }.set_uart uart u'',
    hsend, ?_, ?_, ?_, ?_, ?_, ?_⟩
  · unfold uart_isr
    rw [if_neg hge, uart_set_uart, events_set_uart]
    simp only [hrx, except_bind_ok, htxr]
  · rw [uart_set_uart, hsent, hse, htb, hcont1]
  · rw [uart_set_uart]; exact contents_of_count_zero _ hcnt''
  · rw [uart_set_uart]; simp [circular_buffer_is_empty, hcnt'']
  · rw [uart_set_uart]; exact hm
  · rw [uart_set_uart, hcb'', hcbs]; exact hcb

set_option maxRecDepth 100000 in
/-- Witness for C4: "AB" is sent on the idle instance 0 with `TxRdy` raised, then
the ISR runs. -/
theorem uart_send_then_isr_drains_witness :
    0 ≤ 1 ∧ (sys_tx_ready.uart 0).tx_buffer.WF ∧
    (sys_tx_ready.uart 0).tx_buffer.capacity = UART_BUFFER_SIZE ∧
    (sys_tx_ready.uart 0).tx_buffer.count = 0 ∧
    2 ≤ (sys_tx_ready.uart 0).tx_buffer.free ∧
    get_field (sys_tx_ready.uart 0).STAT 7 1 ≠ 0 ∧
    (sys_tx_ready.uart 0).callbacks.tx_callback = none ∧
    (∀ k, k < 2 →
      (sys_tx_ready.uart 0).tx_space ((sys_tx_ready.uart 0).tx_polls + k) % 64 ≠ 0) ∧
    ∃ s1 s2, uart_send sys_tx_ready 0 (some buf_AB) 2 = .ok (s1, ((2 : Nat) : Int)) ∧
      uart_isr s1 0 = .ok s2 ∧
      (s2.uart 0).tx_sent =
        (sys_tx_ready.uart 0).tx_sent ++ (List.range 2).map (fun i => buf_AB i % 256) ∧
      (s2.uart 0).tx_buffer.contents = [] ∧
      circular_buffer_is_empty (s2.uart 0).tx_buffer = true ∧
      (s2.uart 0).mTxR = 1 ∧
      (s2.uart 0).callbacks.tx_callback = none :=
  ⟨by decide, by decide, rfl, rfl, by decide, by decide, rfl,
    fun _ _ => show 1 % 64 ≠ 0 by decide,
    uart_send_then_isr_drains sys_tx_ready 0 buf_AB 2 (by decide) (by decide) rfl rfl
      (by decide) (by decide) rfl (fun _ _ => show 1 % 64 ≠ 0 by decide)⟩

/-- C9: for an instance id greater than 1 each of `uart_init`, `uart_send`,
`uart_receive`, `uart_set_receive_callback` and `uart_set_send_callback` returns
-1 and the state after the call differs from the state before it in `errno`
only (GPIO block, both instances with their registers, rings and callback
slots, and the caller's buffer are unchanged); the same holds for `uart_init`
with a null name and for `uart_send` / `uart_receive` with a null buffer on a
valid id. -/
theorem uart_invalid_parameter_rejected (CPU_FREQ : Nat) (s : System)
    (uart valid_uart br count : Nat) (name : Option String) (buf : Option (Nat → Nat))
    (func : Option Nat) (h : 1 < uart) (hv : valid_uart ≤ 1) :
    uart_init CPU_FREQ s uart br name = ({ s with errno := ENODEV }, -1) ∧
    uart_send s uart buf count = .ok ({ s with errno := ENODEV }, -1) ∧
    uart_receive s uart buf count = .ok ({ s with errno := ENODEV }, buf, -1) ∧
    uart_set_receive_callback s uart func = ({ s with errno := ENODEV }, -1) ∧
    uart_set_send_callback s uart func = ({ s with errno := ENODEV }, -1) ∧
    uart_init CPU_FREQ s valid_uart br none = ({ s with errno := EFAULT }, -1) ∧
    uart_send s valid_uart none count = .ok ({ s with errno := EFAULT }, -1) ∧
    uart_receive s valid_uart none count = .ok ({ s with errno := EFAULT }, none, -1) := by
  have hgt : uart > uart_2 := h
  have hv' : ¬ valid_uart > uart_2 := by simp only [uart_2]; omega
  refine ⟨?_, ?_, ?_, ?_, ?_, ?_, ?_, ?_⟩
  · unfold uart_init; rw [if_pos hgt]
  · unfold uart_send; rw [if_pos hgt]
  · unfold uart_receive; rw [if_pos hgt]
  · unfold uart_set_receive_callback; rw [if_pos hgt]
  · unfold uart_set_send_callback; rw [if_pos hgt]
  · unfold uart_init; rw [if_neg hv']
  · unfold uart_send; rw [if_neg hv']
  · unfold uart_receive; rw [if_neg hv']

/-- Witness for C9: instance id 2, and null pointers on instance 0, on the idle
system. -/
theorem uart_invalid_parameter_rejected_witness :
    1 < 2 ∧ 0 ≤ 1 ∧
    (uart_init 24000000 sys_idle 2 115200 (some dev_name) =
      ({ sys_idle with errno := ENODEV }, -1) ∧
    uart_send sys_idle 2 (some buf_AB) 2 = .ok ({ sys_idle with errno := ENODEV }, -1) ∧
    uart_receive sys_idle 2 (some buf_AB) 2 =
      .ok ({ sys_idle with errno := ENODEV }, some buf_AB, -1) ∧
    uart_set_receive_callback sys_idle 2 (some 7) = ({ sys_idle with errno := ENODEV }, -1) ∧
    uart_set_send_callback sys_idle 2 (some 7) = ({ sys_idle with errno := ENODEV }, -1) ∧
    uart_init 24000000 sys_idle 0 115200 none = ({ sys_idle with errno := EFAULT }, -1) ∧
    uart_send sys_idle 0 none 2 = .ok ({ sys_idle with errno := EFAULT }, -1) ∧
    uart_receive sys_idle 0 none 2 = .ok ({ sys_idle with errno := EFAULT }, none, -1)) :=
  ⟨by decide, by decide,
    uart_invalid_parameter_rejected 24000000 sys_idle 2 0 115200 2 (some dev_name)
      (some buf_AB) (some 7) (by decide) (by decide)⟩

/-! ## gpio.c : function-select fields -/

theorem testBit_shl32 (x n i : Nat) (hn : n < 32) :
    (shl32 x n).testBit i = (decide (i < 32) && (decide (n ≤ i) && x.testBit (i - n))) := by
  unfold shl32
  rw [if_pos hn, Nat.testBit_mod_two_pow, Nat.testBit_shiftLeft]

theorem testBit_ones32 (i : Nat) : Nat.testBit 0xFFFFFFFF i = decide (i < 32) := by
  have h : (0xFFFFFFFF : Nat) = 2 ^ 32 - 1 := by norm_num
  rw [h, Nat.testBit_two_pow_sub_one]

theorem testBit_not32 (x i : Nat) :
    (not32 x).testBit i = (decide (i < 32) && !x.testBit i) := by
  unfold not32
  rw [Nat.testBit_xor, testBit_ones32, Nat.testBit_mod_two_pow]
  cases decide (i < 32) <;> simp

theorem testBit_three (j : Nat) : Nat.testBit 3 j = decide (j < 2) := by
  have h : (3 : Nat) = 2 ^ 2 - 1 := by norm_num
  rw [h, Nat.testBit_two_pow_sub_one]

theorem testBit_get_field (w pos width j : Nat) :
    (get_field w pos width).testBit j = (decide (j < width) && w.testBit (pos + j)) := by
  unfold get_field
  rw [Nat.testBit_mod_two_pow, ← Nat.shiftRight_eq_div_pow, Nat.testBit_shiftRight]

theorem testBit_code_high {f j : Nat} (hf : f ≤ 3) (hj : 2 ≤ j) : f.testBit j = false := by
  apply Nat.testBit_lt_two_pow
  calc f < 2 ^ 2 := by omega
    _ ≤ 2 ^ j := Nat.pow_le_pow_right (by decide) hj

/-- Bits of the word stored by the read-modify-write of one function field. -/
theorem testBit_func_sel_rmw (r f k i : Nat) (hk : k < 16) (hf : f ≤ 3) :
    (((r &&& not32 (shl32 3 (k * 2))) ||| shl32 f (k * 2)) % 2 ^ 32).testBit i =
      (decide (i < 32) &&
        (if k * 2 ≤ i ∧ i < k * 2 + 2 then f.testBit (i - k * 2) else r.testBit i)) := by
  rw [Nat.testBit_mod_two_pow, Nat.testBit_or, Nat.testBit_and, testBit_not32,
    testBit_shl32 _ _ _ (by omega), testBit_shl32 _ _ _ (by omega), testBit_three]
  by_cases h32 : i < 32
  · by_cases hlo : k * 2 ≤ i
    · by_cases hhi : i < k * 2 + 2
      · have h2 : i - k * 2 < 2 := by omega
        simp [h32, hlo, hhi, h2]
      · have h2 : ¬ i - k * 2 < 2 := by omega
        have hfz : f.testBit (i - k * 2) = false := testBit_code_high hf (by omega)
        simp [h32, hlo, hhi, h2, hfz]
    · simp [h32, hlo]
  · simp [h32]

theorem get_field_func_sel_rmw (r f k j : Nat) (hk : k < 16) (hj : j < 16) (hf : f ≤ 3) :
    get_field (((r &&& not32 (shl32 3 (k * 2))) ||| shl32 f (k * 2)) % 2 ^ 32) (2 * j) 2 =
      if j = k then f else get_field r (2 * j) 2 := by
  apply Nat.eq_of_testBit_eq
  intro t
  rw [testBit_get_field, testBit_func_sel_rmw r f k _ hk hf]
  by_cases ht : t < 2
  · have h32 : 2 * j + t < 32 := by omega
    by_cases hjk : j = k
    · subst hjk
      have hin : j * 2 ≤ 2 * j + t ∧ 2 * j + t < j * 2 + 2 := by omega
      have hsub : 2 * j + t - j * 2 = t := by omega
      simp [ht, h32, hin, hsub]
    · have hout : ¬ (k * 2 ≤ 2 * j + t ∧ 2 * j + t < k * 2 + 2) := by omega
      simp [ht, h32, hout, hjk, testBit_get_field]
  · have hfz : f.testBit t = false := testBit_code_high hf (by omega)
    by_cases hjk : j = k
    · simp [ht, hjk, hfz]
    · simp [ht, hjk, testBit_get_field]

theorem gpio_func_code_some {func : Nat} (h : func ≤ 3) : gpio_func_code func = some func := by
  unfold gpio_func_code gpio_func_normal gpio_func_alternate_1 gpio_func_alternate_2
    gpio_func_alternate_3
  have h' : func = 0 ∨ func = 1 ∨ func = 2 ∨ func = 3 := by omega
  rcases h' with h' | h' | h' | h' <;> subst h' <;> rfl

theorem gpio_func_sel_rmw_regs (g : Gpio) (n function k : Nat) :
    (gpio_func_sel_rmw g (gpio_func_sel_reg n) function k).regs =
      Function.update g.regs (gpio_func_sel_reg n)
        (((g.regs (gpio_func_sel_reg n) &&& not32 (shl32 3 (k * 2))) |||
          shl32 function (k * 2)) % 2 ^ 32) := by
  unfold gpio_func_sel_reg
  split <;> rfl

theorem gpio_func_sel_rmw_stores (g : Gpio) (reg : GpioReg) (function k : Nat) :
    (gpio_func_sel_rmw g reg function k).stores =
      g.stores ++ [(reg, ((g.regs reg &&& not32 (shl32 3 (k * 2))) |||
          shl32 function (k * 2)) % 2 ^ 32)] := rfl

theorem sub32_small {a b : Nat} (hb : b ≤ a) (ha : a < 2 ^ 32) : sub32 a b = a - b := by
  unfold sub32
  have h1 : a % 2 ^ 32 = a := Nat.mod_eq_of_lt ha
  have h2 : b % 2 ^ 32 = b := Nat.mod_eq_of_lt (by omega)
  rw [h1, h2]
  have h3 : a + 2 ^ 32 - b = (a - b) + 2 ^ 32 := by omega
  rw [h3, Nat.add_mod_right, Nat.mod_eq_of_lt (by omega)]

theorem gpio_set_pin_func_eq (g : Gpio) (pin func : Nat) (hpin : pin < 64) (hf : func ≤ 3) :
    gpio_set_pin_func g pin func =
      (gpio_err_t.gpio_no_error,
        gpio_func_sel_rmw g (gpio_func_sel_reg (pin / 16)) func (pin % 16)) := by
  unfold gpio_set_pin_func
  rw [gpio_func_code_some hf]
  simp only [gpio_pin_0, gpio_pin_16, gpio_pin_32, gpio_pin_48, gpio_pin_63, gpio_pin_max]
  rw [if_neg (by omega)]
  by_cases h16 : pin < 16
  · rw [if_pos h16, show pin / 16 = 0 by omega, show pin % 16 = pin by omega]; rfl
  · rw [if_neg h16]
    by_cases h32 : pin < 32
    · rw [if_pos h32, show pin / 16 = 1 by omega, sub32_small (by omega) (by omega),
        show pin % 16 = pin - 16 by omega]; rfl
    · rw [if_neg h32]
      by_cases h48 : pin < 48
      · rw [if_pos h48, show pin / 16 = 2 by omega, sub32_small (by omega) (by omega),
          show pin % 16 = pin - 32 by omega]; rfl
      · rw [if_neg h48, if_pos hpin, show pin / 16 = 3 by omega,
          sub32_small (by omega) (by omega), show pin % 16 = pin - 48 by omega]; rfl

/-- C11: for every pin in 0..63, every function code `func` in 0..3 (normal,
alternate 1..3) and every content of the 32-bit registers,
`gpio_set_pin_func` returns `gpio_no_error`; afterwards the 2-bit field at bit
`2 * (pin % 16)` of function-select register `pin / 16` equals `func`, every
other bit of that register is as before, and every other register (the other
three function-select registers included) is unchanged.  For a pin of 64 or
more it returns `gpio_invalid_parameter` and changes nothing. -/
theorem gpio_set_pin_func_sets_field (g : Gpio) (pin func big_pin : Nat)
    (hpin : pin < 64) (hfunc : func ≤ 3) (hbig : 64 ≤ big_pin)
    (hregs : ∀ r, g.regs r < 2 ^ 32) :
    (gpio_set_pin_func g pin func).1 = gpio_err_t.gpio_no_error ∧
    get_field ((gpio_set_pin_func g pin func).2.regs (gpio_func_sel_reg (pin / 16)))
      (2 * (pin % 16)) 2 = func ∧
    (∀ i, i ≠ 2 * (pin % 16) → i ≠ 2 * (pin % 16) + 1 →
      ((gpio_set_pin_func g pin func).2.regs (gpio_func_sel_reg (pin / 16))).testBit i =
        (g.regs (gpio_func_sel_reg (pin / 16))).testBit i) ∧
    (∀ r, r ≠ gpio_func_sel_reg (pin / 16) →
      (gpio_set_pin_func g pin func).2.regs r = g.regs r) ∧
    gpio_set_pin_func g big_pin func = (gpio_err_t.gpio_invalid_parameter, g) := by
  have hk : pin % 16 < 16 := Nat.mod_lt _ (by decide)
  rw [gpio_set_pin_func_eq g pin func hpin hfunc]
  simp only [gpio_func_sel_rmw_regs, Function.update_same]
  refine ⟨trivial, ?_, ?_, ?_, ?_⟩
  · rw [get_field_func_sel_rmw _ _ _ _ hk hk hfunc, if_pos rfl]
  · intro i h0 h1
    rw [testBit_func_sel_rmw _ _ _ _ hk hfunc]
    have hout : ¬ (pin % 16 * 2 ≤ i ∧ i < pin % 16 * 2 + 2) := by omega
    rw [if_neg hout]
    by_cases h32 : i < 32
    · simp [h32]
    · have hz : (g.regs (gpio_func_sel_reg (pin / 16))).testBit i = false := by
        apply Nat.testBit_lt_two_pow
        calc g.regs (gpio_func_sel_reg (pin / 16)) < 2 ^ 32 := hregs _
          _ ≤ 2 ^ i := Nat.pow_le_pow_right (by decide) (by omega)
      simp [h32, hz]
  · intro r hr
    exact Function.update_noteq hr _ _
  · unfold gpio_set_pin_func
    rw [gpio_func_code_some hfunc]
    simp only [gpio_pin_0, gpio_pin_16, gpio_pin_32, gpio_pin_48, gpio_pin_63, gpio_pin_max]
    rw [if_neg (by omega), if_neg (by omega), if_neg (by omega), if_neg (by omega),
      if_neg (by omega)]

/-- Witness for C11: pin 14 (the tx pin of the first UART) is switched to
alternate function 1 on the all-zero register block; pin 64 is rejected. -/
theorem gpio_set_pin_func_sets_field_witness :
    14 < 64 ∧ 1 ≤ 3 ∧ 64 ≤ 64 ∧ (∀ r, gpio_reset.regs r < 2 ^ 32) ∧
    ((gpio_set_pin_func gpio_reset 14 1).1 = gpio_err_t.gpio_no_error ∧
    get_field ((gpio_set_pin_func gpio_reset 14 1).2.regs (gpio_func_sel_reg (14 / 16)))
      (2 * (14 % 16)) 2 = 1 ∧
    (∀ i, i ≠ 2 * (14 % 16) → i ≠ 2 * (14 % 16) + 1 →
      ((gpio_set_pin_func gpio_reset 14 1).2.regs (gpio_func_sel_reg (14 / 16))).testBit i =
        (gpio_reset.regs (gpio_func_sel_reg (14 / 16))).testBit i) ∧
    (∀ r, r ≠ gpio_func_sel_reg (14 / 16) →
      (gpio_set_pin_func gpio_reset 14 1).2.regs r = gpio_reset.regs r) ∧
    gpio_set_pin_func gpio_reset 64 1 = (gpio_err_t.gpio_invalid_parameter, gpio_reset)) :=
  ⟨by decide, by decide, by decide, fun _ => show 0 < 2 ^ 32 by decide,
    gpio_set_pin_func_sets_field gpio_reset 14 1 64 (by decide) (by decide) (by decide)
      (fun _ => show 0 < 2 ^ 32 by decide)⟩

theorem shl32_one (i : Nat) (hi : i < 32) : shl32 1 i = 2 ^ i := by
  unfold shl32
  rw [if_pos hi, Nat.one_shiftLeft]
  exact Nat.mod_eq_of_lt (Nat.pow_lt_pow_right (by decide) hi)

theorem mask_bit_test (mask i : Nat) (hi : i < 32) :
    (mask &&& shl32 1 i ≠ 0) ↔ mask.testBit i = true := by
  rw [shl32_one i hi, Nat.and_two_pow]
  have hp : 0 < 2 ^ i := Nat.pow_pos (by decide)
  cases h : mask.testBit i
  · simp
  · simp only [Bool.toNat_true, Nat.one_mul, ne_eq, iff_true]
    omega

theorem gpio_func_sel_reg_inj {a b : Nat} (ha : a ≤ 3) (hb : b ≤ 3)
    (h : gpio_func_sel_reg a = gpio_func_sel_reg b) : a = b := by
  have ha' : a = 0 ∨ a = 1 ∨ a = 2 ∨ a = 3 := by omega
  have hb' : b = 0 ∨ b = 1 ∨ b = 2 ∨ b = 3 := by omega
  rcases ha' with ha' | ha' | ha' | ha' <;> rcases hb' with hb' | hb' | hb' | hb' <;>
    subst ha' <;> subst hb' <;> first | rfl | exact absurd h (by decide)

/-- Effect of a run of read-modify-writes of one function-select register over
a list of field indices. -/
theorem gpio_func_sel_fold (n f mask i0 : Nat) (hf : f ≤ 3) :
    ∀ (l : List Nat) (g : Gpio), (∀ j ∈ l, j < 16) →
      (∀ r, r ≠ gpio_func_sel_reg n →
        (l.foldl (fun g j => if mask &&& shl32 1 (i0 + j) ≠ 0
          then gpio_func_sel_rmw g (gpio_func_sel_reg n) f j else g) g).regs r = g.regs r) ∧
      (∀ j, j < 16 →
        get_field ((l.foldl (fun g j => if mask &&& shl32 1 (i0 + j) ≠ 0
          then gpio_func_sel_rmw g (gpio_func_sel_reg n) f j else g) g).regs
            (gpio_func_sel_reg n)) (2 * j) 2 =
          if j ∈ l ∧ mask &&& shl32 1 (i0 + j) ≠ 0 then f
          else get_field (g.regs (gpio_func_sel_reg n)) (2 * j) 2) := by
  intro l
  induction l with
  | nil =>
    intro g _
    exact ⟨fun _ _ => rfl, fun j _ => by simp⟩
  | cons a l ih =>
    intro g hl
    have ha : a < 16 := hl a (List.mem_cons_self a l)
    have hl' : ∀ j ∈ l, j < 16 := fun j hj => hl j (List.mem_cons_of_mem a hj)
    rw [List.foldl_cons]
    obtain ⟨ih1, ih2⟩ := ih (if mask &&& shl32 1 (i0 + a) ≠ 0
      then gpio_func_sel_rmw g (gpio_func_sel_reg n) f a else g) hl'
    constructor
    · intro r hr
      rw [ih1 r hr]
      split
      · rw [gpio_func_sel_rmw_regs]; exact Function.update_noteq hr _ _
      · rfl
    · intro j hj
      rw [ih2 j hj]
      by_cases hjl : j ∈ l ∧ mask &&& shl32 1 (i0 + j) ≠ 0
      · rw [if_pos hjl, if_pos ⟨List.mem_cons_of_mem a hjl.1, hjl.2⟩]
      · rw [if_neg hjl]
        by_cases hbit : mask &&& shl32 1 (i0 + a) ≠ 0
        · rw [if_pos hbit, gpio_func_sel_rmw_regs, Function.update_same,
            get_field_func_sel_rmw _ _ _ _ ha hj hf]
          by_cases hja : j = a
          · subst hja
            rw [if_pos rfl, if_pos ⟨List.mem_cons_self j l, hbit⟩]
          · rw [if_neg hja, if_neg]
            rintro ⟨hmem, hb⟩
            rcases List.mem_cons.1 hmem with h | h
            · exact hja h
            · exact hjl ⟨h, hb⟩
        · rw [if_neg hbit, if_neg]
          rintro ⟨hmem, hb⟩
          rcases List.mem_cons.1 hmem with h | h
          · subst h; exact hbit hb
          · exact hjl ⟨h, hb⟩

theorem gpio_set_port_func_loop_effect (g : Gpio) (n f mask i0 : Nat) (hf : f ≤ 3)
    (hi0 : i0 ≤ 16) :
    (∀ r, r ≠ gpio_func_sel_reg n →
      (gpio_set_port_func_loop g (gpio_func_sel_reg n) f mask i0).regs r = g.regs r) ∧
    (∀ j, j < 16 →
      get_field ((gpio_set_port_func_loop g (gpio_func_sel_reg n) f mask i0).regs
          (gpio_func_sel_reg n)) (2 * j) 2 =
        if mask.testBit (i0 + j) then f
        else get_field (g.regs (gpio_func_sel_reg n)) (2 * j) 2) := by
  obtain ⟨h1, h2⟩ := gpio_func_sel_fold n f mask i0 hf (List.range 16) g
    (fun j hj => List.mem_range.1 hj)
  refine ⟨h1, ?_⟩
  intro j hj
  have h := h2 j hj
  unfold gpio_set_port_func_loop
  rw [h]
  by_cases hb : mask.testBit (i0 + j) = true
  · rw [if_pos hb, if_pos ⟨List.mem_range.2 hj, (mask_bit_test mask _ (by omega)).2 hb⟩]
  · rw [if_neg hb, if_neg]
    rintro ⟨-, hb'⟩
    exact hb ((mask_bit_test mask _ (by omega)).1 hb')

theorem gpio_set_port_func_eq_loops (g : Gpio) (port f mask : Nat) (hport : port ≤ 1)
    (hf : f ≤ 3) :
    gpio_set_port_func g port f mask =
      (gpio_err_t.gpio_no_error,
        gpio_set_port_func_loop
          (gpio_set_port_func_loop g (gpio_func_sel_reg (2 * port)) f mask 0)
          (gpio_func_sel_reg (2 * port + 1)) f mask 16) := by
  unfold gpio_set_port_func
  rw [gpio_func_code_some hf]
  have hp : port = 0 ∨ port = 1 := by omega
  rcases hp with hp | hp <;> subst hp <;> rfl

theorem gpio_set_port_func_by_pins_eq_loops (g : Gpio) (port f mask : Nat) (hport : port ≤ 1)
    (hf : f ≤ 3) :
    gpio_set_port_func_by_pins g port f mask =
      gpio_set_port_func_loop
        (gpio_set_port_func_loop g (gpio_func_sel_reg (2 * port)) f mask 0)
        (gpio_func_sel_reg (2 * port + 1)) f mask 16 := by
  have hstep : ∀ (n i0 : Nat), n ≤ 3 → i0 ≤ 16 → (32 * port + i0) / 16 = n → i0 % 16 = 0 →
      ∀ (g : Gpio), ∀ j ∈ List.range 16,
        (if mask.testBit (i0 + j) then (gpio_set_pin_func g (32 * port + (i0 + j)) f).2 else g) =
        (if mask &&& shl32 1 (i0 + j) ≠ 0
          then gpio_func_sel_rmw g (gpio_func_sel_reg n) f j else g) := by
    intro n i0 _ hi0 hn hmod g j hj
    have hj' : j < 16 := List.mem_range.1 hj
    rw [gpio_set_pin_func_eq g _ f (by omega) hf,
      show (32 * port + (i0 + j)) / 16 = n by omega,
      show (32 * port + (i0 + j)) % 16 = j by omega]
    by_cases hb : mask.testBit (i0 + j) = true
    · rw [if_pos hb, if_pos ((mask_bit_test mask _ (by omega)).2 hb)]
    · rw [if_neg hb, if_neg (fun h => hb ((mask_bit_test mask _ (by omega)).1 h))]
  unfold gpio_set_port_func_by_pins gpio_set_port_func_loop
  rw [show (32 : Nat) = 16 + 16 from rfl, List.range_add, List.foldl_append, List.foldl_map]
  have h1 := fun g0 => List.foldl_ext
    (fun g i => if mask.testBit i then (gpio_set_pin_func g ((16 + 16) * port + i) f).2 else g)
    (fun g j => if mask &&& shl32 1 (0 + j) ≠ 0
      then gpio_func_sel_rmw g (gpio_func_sel_reg (2 * port)) f j else g) g0
    (l := List.range 16)
    (by
      intro a b hb
      have := hstep (2 * port) 0 (by omega) (by omega) (by omega) rfl a b hb
      simpa using this)
  have h2 := fun g0 => List.foldl_ext
    (fun g i => if mask.testBit (16 + i)
      then (gpio_set_pin_func g ((16 + 16) * port + (16 + i)) f).2 else g)
    (fun g j => if mask &&& shl32 1 (16 + j) ≠ 0
      then gpio_func_sel_rmw g (gpio_func_sel_reg (2 * port + 1)) f j else g) g0
    (l := List.range 16)
    (by
      intro a b hb
      exact hstep (2 * port + 1) 16 (by omega) (by omega) (by omega) rfl a b hb)
  rw [h1, h2]

/-- C12: for every port in {0,1}, every function code `func` in 0..3 and every
mask, `gpio_set_port_func (port, func, mask)` returns `gpio_no_error` and
leaves the register block exactly as the calls `gpio_set_pin_func
(32 * port + i, func)` for every `i` in 0..31 whose bit is set in `mask` do;
afterwards the 2-bit field of each selected pin equals `func`, and the field
of every unselected pin and of every pin of the other port is unchanged. -/
theorem gpio_set_port_func_refines_pins (g : Gpio) (port func mask : Nat)
    (hport : port ≤ 1) (hfunc : func ≤ 3) :
    gpio_set_port_func g port func mask =
      (gpio_err_t.gpio_no_error, gpio_set_port_func_by_pins g port func mask) ∧
    ∀ pin, pin < 64 →
      gpio_pin_func_field (gpio_set_port_func g port func mask).2.regs pin =
        if pin / 32 = port ∧ mask.testBit (pin % 32) = true then func
        else gpio_pin_func_field g.regs pin := by
  refine ⟨by rw [gpio_set_port_func_eq_loops g port func mask hport hfunc,
    gpio_set_port_func_by_pins_eq_loops g port func mask hport hfunc], ?_⟩
  intro pin hpin
  rw [gpio_set_port_func_eq_loops g port func mask hport hfunc]
  obtain ⟨a1, a2⟩ := gpio_set_port_func_loop_effect g (2 * port) func mask 0 hfunc (by omega)
  obtain ⟨b1, b2⟩ := gpio_set_port_func_loop_effect
    (gpio_set_port_func_loop g (gpio_func_sel_reg (2 * port)) func mask 0)
    (2 * port + 1) func mask 16 hfunc (by omega)
  have hj : pin % 16 < 16 := Nat.mod_lt _ (by decide)
  have hne : gpio_func_sel_reg (2 * port) ≠ gpio_func_sel_reg (2 * port + 1) := by
    intro h
    have := gpio_func_sel_reg_inj (by omega) (by omega) h
    omega
  unfold gpio_pin_func_field
  simp only
  by_cases hq0 : pin / 16 = 2 * port
  · rw [hq0, b1 _ hne, a2 _ hj, Nat.zero_add]
    have hm : pin % 32 = pin % 16 := by omega
    have hp : pin / 32 = port := by omega
    rw [hm]
    by_cases hb : mask.testBit (pin % 16) = true
    · rw [if_pos hb, if_pos ⟨hp, hb⟩]
    · rw [if_neg hb, if_neg (fun h => hb h.2)]
  · by_cases hq1 : pin / 16 = 2 * port + 1
    · rw [hq1, b2 _ hj, a1 _ hne.symm]
      have hm : pin % 32 = 16 + pin % 16 := by omega
      have hp : pin / 32 = port := by omega
      rw [hm]
      by_cases hb : mask.testBit (16 + pin % 16) = true
      · rw [if_pos hb, if_pos ⟨hp, hb⟩]
      · rw [if_neg hb, if_neg (fun h => hb h.2)]
    · have hp : pin / 32 ≠ port := by omega
      have hq : pin / 16 ≤ 3 := by omega
      have hr0 : gpio_func_sel_reg (pin / 16) ≠ gpio_func_sel_reg (2 * port) :=
        fun h => hq0 (gpio_func_sel_reg_inj hq (by omega) h)
      have hr1 : gpio_func_sel_reg (pin / 16) ≠ gpio_func_sel_reg (2 * port + 1) :=
        fun h => hq1 (gpio_func_sel_reg_inj hq (by omega) h)
      rw [b1 _ hr1, a1 _ hr0, if_neg (fun h => hp h.1)]

/-- Witness for C12: alternate function 1 for pins 14..17 of port 0 (mask
`0x3C000`) on the all-zero register block. -/
theorem gpio_set_port_func_refines_pins_witness :
    0 ≤ 1 ∧ 1 ≤ 3 ∧
    (gpio_set_port_func gpio_reset 0 1 0x3C000 =
      (gpio_err_t.gpio_no_error, gpio_set_port_func_by_pins gpio_reset 0 1 0x3C000) ∧
    ∀ pin, pin < 64 →
      gpio_pin_func_field (gpio_set_port_func gpio_reset 0 1 0x3C000).2.regs pin =
        if pin / 32 = 0 ∧ Nat.testBit 0x3C000 (pin % 32) = true then 1
        else gpio_pin_func_field gpio_reset.regs pin) :=
  ⟨by decide, by decide,
    gpio_set_port_func_refines_pins gpio_reset 0 1 0x3C000 (by decide) (by decide)⟩

/-! ## gpio.c : pin and port operations on the set / reset registers -/

/-- C13: for every pin in 0..63 each of `gpio_set_pin`, `gpio_clear_pin`,
`gpio_set_pin_dir_output` and `gpio_set_pin_dir_input` has the same result
(return value and register block) as the corresponding port operation called
with `port = pin / 32` and `mask = 1 << (pin % 32)`, and that result is
`gpio_no_error` with a single store of the one-bit mask `2 ^ (pin % 32)` to the
set or reset register of that port added to the stores issued so far. -/
theorem gpio_pin_ops_refine_port_ops (g : Gpio) (pin : Nat) (hpin : pin < 64) :
    gpio_set_pin g pin = gpio_set_port g (pin / 32) (shl32 1 (pin % 32)) ∧
    gpio_clear_pin g pin = gpio_clear_port g (pin / 32) (shl32 1 (pin % 32)) ∧
    gpio_set_pin_dir_output g pin =
      gpio_set_port_dir_output g (pin / 32) (shl32 1 (pin % 32)) ∧
    gpio_set_pin_dir_input g pin =
      gpio_set_port_dir_input g (pin / 32) (shl32 1 (pin % 32)) ∧
    (gpio_set_pin g pin).1 = gpio_err_t.gpio_no_error ∧
    (gpio_clear_pin g pin).1 = gpio_err_t.gpio_no_error ∧
    (gpio_set_pin_dir_output g pin).1 = gpio_err_t.gpio_no_error ∧
    (gpio_set_pin_dir_input g pin).1 = gpio_err_t.gpio_no_error ∧
    (gpio_set_pin g pin).2.stores =
      g.stores ++ [(gpio_data_set_reg (pin / 32), 2 ^ (pin % 32))] ∧
    (gpio_clear_pin g pin).2.stores =
      g.stores ++ [(gpio_data_reset_reg (pin / 32), 2 ^ (pin % 32))] ∧
    (gpio_set_pin_dir_output g pin).2.stores =
      g.stores ++ [(gpio_pad_dir_set_reg (pin / 32), 2 ^ (pin % 32))] ∧
    (gpio_set_pin_dir_input g pin).2.stores =
      g.stores ++ [(gpio_pad_dir_reset_reg (pin / 32), 2 ^ (pin % 32))] := by
  have hpow : (2 : Nat) ^ (pin % 32) < 4294967296 :=
    Nat.pow_lt_pow_right (by decide) (Nat.mod_lt _ (by decide))
  by_cases h32 : pin < 32
  · have hq : pin / 32 = 0 := by omega
    have hm : pin % 32 = pin := by omega
    have hs : shl32 1 pin = 2 ^ pin := shl32_one pin h32
    rw [hm] at hpow
    simp [gpio_set_pin, gpio_clear_pin, gpio_set_pin_dir_output, gpio_set_pin_dir_input,
      gpio_set_port, gpio_clear_port, gpio_set_port_dir_output, gpio_set_port_dir_input,
      gpio_data_set_reg, gpio_data_reset_reg, gpio_pad_dir_set_reg, gpio_pad_dir_reset_reg,
      gpio_pin_0, gpio_pin_32, gpio_pin_63, gpio_port_0, gpio_port_1, hq, hm, h32, hs,
      gpio_write, hpow]
  · have hq : pin / 32 = 1 := by omega
    have hm : pin % 32 = pin - 32 := by omega
    have hsub : sub32 pin 32 = pin - 32 := sub32_small (by omega) (by omega)
    have hs : shl32 1 (pin - 32) = 2 ^ (pin - 32) := shl32_one _ (by omega)
    rw [hm] at hpow
    simp [gpio_set_pin, gpio_clear_pin, gpio_set_pin_dir_output, gpio_set_pin_dir_input,
      gpio_set_port, gpio_clear_port, gpio_set_port_dir_output, gpio_set_port_dir_input,
      gpio_data_set_reg, gpio_data_reset_reg, gpio_pad_dir_set_reg, gpio_pad_dir_reset_reg,
      gpio_pin_0, gpio_pin_32, gpio_pin_63, gpio_port_0, gpio_port_1, hq, hm, h32, hsub, hs,
      gpio_write, hpow]

/-- Witness for C13: pin 44 (the red LED of the demo) on the all-zero register
block. -/
theorem gpio_pin_ops_refine_port_ops_witness :
    44 < 64 ∧
    (gpio_set_pin gpio_reset 44 = gpio_set_port gpio_reset (44 / 32) (shl32 1 (44 % 32)) ∧
    gpio_clear_pin gpio_reset 44 = gpio_clear_port gpio_reset (44 / 32) (shl32 1 (44 % 32)) ∧
    gpio_set_pin_dir_output gpio_reset 44 =
      gpio_set_port_dir_output gpio_reset (44 / 32) (shl32 1 (44 % 32)) ∧
    gpio_set_pin_dir_input gpio_reset 44 =
      gpio_set_port_dir_input gpio_reset (44 / 32) (shl32 1 (44 % 32)) ∧
    (gpio_set_pin gpio_reset 44).1 = gpio_err_t.gpio_no_error ∧
    (gpio_clear_pin gpio_reset 44).1 = gpio_err_t.gpio_no_error ∧
    (gpio_set_pin_dir_output gpio_reset 44).1 = gpio_err_t.gpio_no_error ∧
    (gpio_set_pin_dir_input gpio_reset 44).1 = gpio_err_t.gpio_no_error ∧
    (gpio_set_pin gpio_reset 44).2.stores =
      gpio_reset.stores ++ [(gpio_data_set_reg (44 / 32), 2 ^ (44 % 32))] ∧
    (gpio_clear_pin gpio_reset 44).2.stores =
      gpio_reset.stores ++ [(gpio_data_reset_reg (44 / 32), 2 ^ (44 % 32))] ∧
    (gpio_set_pin_dir_output gpio_reset 44).2.stores =
      gpio_reset.stores ++ [(gpio_pad_dir_set_reg (44 / 32), 2 ^ (44 % 32))] ∧
    (gpio_set_pin_dir_input gpio_reset 44).2.stores =
      gpio_reset.stores ++ [(gpio_pad_dir_reset_reg (44 / 32), 2 ^ (44 % 32))]) :=
  ⟨by decide, gpio_pin_ops_refine_port_ops gpio_reset 44 (by decide)⟩

/-- C14 (as amended): for every port in {0,1}, every 32-bit mask and every prior
content of the direction register, after `gpio_set_port_dir_output (port,
mask)` the direction register reads as its prior content or-ed with `mask`:
every bit of `mask` is an output and every bit outside `mask` keeps the
direction it had; the readback is exactly `mask` when no bit outside `mask`
was an output before the call. -/
theorem gpio_set_port_dir_output_readback (g : Gpio) (port mask : Nat)
    (hport : port ≤ 1) (hmask : mask < 2 ^ 32) :
    (gpio_set_port_dir_output g port mask).1 = gpio_err_t.gpio_no_error ∧
    (gpio_set_port_dir_output g port mask).2.regs (gpio_pad_dir_reg port) =
      g.regs (gpio_pad_dir_reg port) ||| mask ∧
    (∀ i, mask.testBit i = true →
      ((gpio_set_port_dir_output g port mask).2.regs (gpio_pad_dir_reg port)).testBit i
        = true) ∧
    (∀ i, mask.testBit i = false →
      ((gpio_set_port_dir_output g port mask).2.regs (gpio_pad_dir_reg port)).testBit i =
        (g.regs (gpio_pad_dir_reg port)).testBit i) ∧
    ((∀ i, (g.regs (gpio_pad_dir_reg port)).testBit i = true → mask.testBit i = true) →
      (gpio_set_port_dir_output g port mask).2.regs (gpio_pad_dir_reg port) = mask) := by
  have hm : mask % 4294967296 = mask := Nat.mod_eq_of_lt hmask
  have hreg : (gpio_set_port_dir_output g port mask).2.regs (gpio_pad_dir_reg port) =
      g.regs (gpio_pad_dir_reg port) ||| mask := by
    have hp : port = 0 ∨ port = 1 := by omega
    rcases hp with hp | hp <;> subst hp <;>
      simp [gpio_set_port_dir_output, gpio_pad_dir_reg, gpio_port_0, gpio_port_1, gpio_write,
        gpio_hw_store, hm]
  refine ⟨?_, hreg, ?_, ?_, ?_⟩
  · have hp : port = 0 ∨ port = 1 := by omega
    rcases hp with hp | hp <;> subst hp <;> rfl
  · intro i hi
    rw [hreg, Nat.testBit_or, hi, Bool.or_true]
  · intro i hi
    rw [hreg, Nat.testBit_or, hi, Bool.or_false]
  · intro hsub
    rw [hreg]
    apply Nat.eq_of_testBit_eq
    intro i
    rw [Nat.testBit_or]
    cases hb : (g.regs (gpio_pad_dir_reg port)).testBit i
    · simp
    · simp [hsub i hb]

/-- Witness for C14: port 0 and mask `2` on a block where pin 0 is already an
output. -/
theorem gpio_set_port_dir_output_readback_witness :
    0 ≤ 1 ∧ 2 < 2 ^ 32 ∧
    ((gpio_set_port_dir_output gpio_pin0_output 0 2).1 = gpio_err_t.gpio_no_error ∧
    (gpio_set_port_dir_output gpio_pin0_output 0 2).2.regs (gpio_pad_dir_reg 0) =
      gpio_pin0_output.regs (gpio_pad_dir_reg 0) ||| 2 ∧
    (∀ i, Nat.testBit 2 i = true →
      ((gpio_set_port_dir_output gpio_pin0_output 0 2).2.regs (gpio_pad_dir_reg 0)).testBit i
        = true) ∧
    (∀ i, Nat.testBit 2 i = false →
      ((gpio_set_port_dir_output gpio_pin0_output 0 2).2.regs (gpio_pad_dir_reg 0)).testBit i =
        (gpio_pin0_output.regs (gpio_pad_dir_reg 0)).testBit i) ∧
    ((∀ i, (gpio_pin0_output.regs (gpio_pad_dir_reg 0)).testBit i = true →
        Nat.testBit 2 i = true) →
      (gpio_set_port_dir_output gpio_pin0_output 0 2).2.regs (gpio_pad_dir_reg 0) = 2)) :=
  ⟨by decide, by decide,
    gpio_set_port_dir_output_readback gpio_pin0_output 0 2 (by decide) (by decide)⟩

/-- Counterexample for C14 as stated: pin 0 of port 0 is an output
(`GPIO_PAD_DIR0 = 1`); after `gpio_set_port_dir_output (0, 2)` the direction
register reads 3, so pin 0 is still an output although its bit is not in the
mask. -/
theorem gpio_set_port_dir_output_keeps_prior_outputs :
    (gpio_set_port_dir_output gpio_pin0_output 0 2).1 = gpio_err_t.gpio_no_error ∧
    (gpio_set_port_dir_output gpio_pin0_output 0 2).2.stores =
      [(GpioReg.GPIO_PAD_DIR_SET0, 2)] ∧
    (gpio_set_port_dir_output gpio_pin0_output 0 2).2.regs GpioReg.GPIO_PAD_DIR0 = 3 ∧
    ¬ ((gpio_set_port_dir_output gpio_pin0_output 0 2).2.regs GpioReg.GPIO_PAD_DIR0 = 2) := by
  decide

/-! ## uart.c : baud rate register -/

theorem uart_init_ok (CPU_FREQ : Nat) (s : System) (uart br : Nat) (name : String)
    (hid : uart ≤ 1) :
    (uart_init CPU_FREQ s uart br (some name)).2 = 0 ∧
    ((uart_init CPU_FREQ s uart br (some name)).1.uart uart).BR =
      shl32 ((br * 9999) % 2 ^ 32 / (CPU_FREQ >>> 4)) 16 ||| 9999 := by
  have hgt : ¬ uart > uart_2 := by simp only [uart_2]; omega
  unfold uart_init
  rw [if_neg hgt]
  simp only [uart_set_uart]
  exact ⟨trivial, rfl⟩

/-- C15: for every instance id in {0,1}, every baud value and every non-null
name (and a core clock of at least 16, so that `core_clock >> 4` is not zero),
`uart_init` returns 0 and afterwards the baud register of the instance holds
`(divisor << 16) | 9999` with `divisor = baud * 9999 / (core_clock >> 4)` in
unsigned 32-bit arithmetic; its low 16 bits (modulus) are 9999 and its high
16 bits (increment) are the low 16 bits of `divisor`. -/
theorem uart_init_baud_register (CPU_FREQ : Nat) (s : System) (uart br : Nat) (name : String)
    (hid : uart ≤ 1) (hclk : 16 ≤ CPU_FREQ) :
    (uart_init CPU_FREQ s uart br (some name)).2 = 0 ∧
    ((uart_init CPU_FREQ s uart br (some name)).1.uart uart).BR =
      (uart_baud_divisor CPU_FREQ br <<< 16) % 2 ^ 32 ||| 9999 ∧
    get_field ((uart_init CPU_FREQ s uart br (some name)).1.uart uart).BR 0 16 = 9999 ∧
    get_field ((uart_init CPU_FREQ s uart br (some name)).1.uart uart).BR 16 16 =
      uart_baud_divisor CPU_FREQ br % 2 ^ 16 ∧
    ((uart_init CPU_FREQ s uart br (some name)).1.uart uart).BR < 2 ^ 32 ∧
    0 < CPU_FREQ >>> 4 := by
  obtain ⟨hret, hbr⟩ := uart_init_ok CPU_FREQ s uart br name hid
  have hsh : shl32 ((br * 9999) % 2 ^ 32 / (CPU_FREQ >>> 4)) 16 =
      (uart_baud_divisor CPU_FREQ br <<< 16) % 2 ^ 32 := by
    unfold shl32 uart_baud_divisor
    rw [if_pos (by decide)]
  have hval : (uart_baud_divisor CPU_FREQ br <<< 16) % 2 ^ 32 ||| 9999 =
      2 ^ 16 * (uart_baud_divisor CPU_FREQ br % 2 ^ 16) + 9999 := by
    rw [Nat.mul_add_lt_is_or (by decide), Nat.shiftLeft_eq]
    congr 1
    omega
  have hpos : 0 < CPU_FREQ >>> 4 := by
    rw [Nat.shiftRight_eq_div_pow]
    exact Nat.div_pos hclk (by decide)
  rw [hbr, hsh, hval]
  refine ⟨hret, rfl, ?_, ?_, ?_, hpos⟩
  · unfold get_field; omega
  · unfold get_field; omega
  · omega

/-- Witness for C15: instance 0 at 115200 baud with a 24 MHz core clock. -/
theorem uart_init_baud_register_witness :
    0 ≤ 1 ∧ 16 ≤ 24000000 ∧
    ((uart_init 24000000 sys_idle 0 115200 (some dev_name)).2 = 0 ∧
    ((uart_init 24000000 sys_idle 0 115200 (some dev_name)).1.uart 0).BR =
      (uart_baud_divisor 24000000 115200 <<< 16) % 2 ^ 32 ||| 9999 ∧
    get_field ((uart_init 24000000 sys_idle 0 115200 (some dev_name)).1.uart 0).BR 0 16
      = 9999 ∧
    get_field ((uart_init 24000000 sys_idle 0 115200 (some dev_name)).1.uart 0).BR 16 16 =
      uart_baud_divisor 24000000 115200 % 2 ^ 16 ∧
    ((uart_init 24000000 sys_idle 0 115200 (some dev_name)).1.uart 0).BR < 2 ^ 32 ∧
    0 < 24000000 >>> 4) :=
  ⟨by decide, by decide,
    uart_init_baud_register 24000000 sys_idle 0 115200 dev_name (by decide) (by decide)⟩

/-! ## uart.c : the interrupt service routine -/

theorem uart_isr_rx_loop_ok :
    ∀ (n : Nat) (u : UartInst), u.rx_buffer.WF → u.rx_fifo.length ≤ n →
      u.rx_fifo.length < 64 →
      ∃ cb', uart_isr_rx_loop n u =
          .ok { u with rx_fifo := u.rx_fifo.drop (min u.rx_buffer.free u.rx_fifo.length),
                       rx_buffer := cb' } ∧
        cb'.WF ∧ cb'.capacity = u.rx_buffer.capacity ∧
        cb'.count = u.rx_buffer.count + min u.rx_buffer.free u.rx_fifo.length ∧
        cb'.contents = u.rx_buffer.contents ++
          (u.rx_fifo.take (min u.rx_buffer.free u.rx_fifo.length)).map (fun b => b % 256) := by
  intro n
  induction n with
  | zero =>
    intro u h hn _
    have hnil : u.rx_fifo = [] := List.length_eq_zero.1 (by omega)
    have h0 : u.Rx_fifo_addr_diff = 0 := by simp [UartInst.Rx_fifo_addr_diff, hnil]
    have hu : ({ u with rx_fifo := u.rx_fifo.drop (min u.rx_buffer.free u.rx_fifo.length),
                         rx_buffer := u.rx_buffer } : UartInst) = u := by
      rw [hnil, List.drop_nil, ← hnil]
    refine ⟨u.rx_buffer, ?_, h, rfl, by simp [hnil], by simp [hnil]⟩
    rw [hu]
    simp [uart_isr_rx_loop, h0]
  | succ n ih =>
    intro u h hn h64
    by_cases hc : (!circular_buffer_is_full u.rx_buffer) = true ∧ u.Rx_fifo_addr_diff ≠ 0
    · have hfull : u.rx_buffer.count ≠ u.rx_buffer.capacity := by
        simpa [circular_buffer_is_full] using hc.1
      have hlt : u.rx_buffer.count < u.rx_buffer.capacity := lt_of_le_of_ne h.2.2.2.1 hfull
      have hlen : u.rx_fifo.length ≠ 0 := by
        have := hc.2
        simp only [UartInst.Rx_fifo_addr_diff] at this
        omega
      obtain ⟨x, rest, hx⟩ : ∃ x rest, u.rx_fifo = x :: rest := by
        cases hf : u.rx_fifo with
        | nil => simp [hf] at hlen
        | cons x rest => exact ⟨x, rest, rfl⟩
      obtain ⟨cb1, hw, hwf1, hcap1, hcnt1, hcont1⟩ :=
        circular_buffer_write_ok u.rx_buffer x h hlt
      have hlen1 : rest.length ≤ n := by
        have := congrArg List.length hx
        simp only [List.length_cons] at this
        omega
      have hlen64 : rest.length < 64 := by
        have := congrArg List.length hx
        simp only [List.length_cons] at this
        omega
      obtain ⟨cb', hl, hwf', hcap', hcnt', hcont'⟩ :=
        ih { u.read_Rx_data.2 with rx_buffer := cb1 } hwf1
          (by simpa [UartInst.read_Rx_data, hx] using hlen1)
          (by simpa [UartInst.read_Rx_data, hx] using hlen64)
      have hfree : cb1.free = u.rx_buffer.free - 1 := by
        simp only [circular_buffer_t.free, hcap1, hcnt1]; omega
      have hmin : min u.rx_buffer.free u.rx_fifo.length = min cb1.free rest.length + 1 := by
        rw [hfree, hx, List.length_cons]
        simp only [circular_buffer_t.free]; omega
      have hrd : u.read_Rx_data.1 = x := by simp [UartInst.read_Rx_data, hx]
      have htail : u.read_Rx_data.2.rx_fifo = rest := by simp [UartInst.read_Rx_data, hx]
      refine ⟨cb', ?_, hwf', by rw [hcap']; exact hcap1, ?_, ?_⟩
      · rw [uart_isr_rx_loop, if_pos hc, hrd, hw, except_bind_ok, hl, hmin]
        simp only [htail, hx, List.drop_succ_cons]
        rfl
      · rw [hcnt', hmin]
        simp only [htail, hcnt1]
        omega
      · rw [hcont', hmin]
        simp only [htail, hcont1, hx, List.take_succ_cons, List.map_cons, List.append_assoc,
          List.singleton_append]
    · have hm : min u.rx_buffer.free u.rx_fifo.length = 0 := by
        by_cases hfull : u.rx_buffer.count = u.rx_buffer.capacity
        · simp [circular_buffer_t.free, hfull]
        · have hd : u.Rx_fifo_addr_diff = 0 := by
            by_contra hd
            exact hc ⟨by simp [circular_buffer_is_full, hfull], hd⟩
          simp only [UartInst.Rx_fifo_addr_diff] at hd
          have : u.rx_fifo.length = 0 := by omega
          simp [this]
      exact ⟨u.rx_buffer, by rw [uart_isr_rx_loop, if_neg hc, hm]; rfl, h, rfl,
        by rw [hm]; rfl, by rw [hm]; simp⟩

theorem uart_isr_tx_loop_total :
    ∀ (n : Nat) (u : UartInst), u.tx_buffer.count = n →
      ∃ cb' polls' sent', uart_isr_tx_loop n u =
          .ok { u with tx_polls := polls', tx_sent := sent', tx_buffer := cb' } ∧
        (u.tx_buffer.WF → cb'.WF) := by
  intro n
  induction n with
  | zero =>
    intro u hc
    exact ⟨u.tx_buffer, u.tx_polls, u.tx_sent,
      by simp [uart_isr_tx_loop, circular_buffer_is_empty, hc], fun h => h⟩
  | succ n ih =>
    intro u hc
    have hb : (!circular_buffer_is_empty u.tx_buffer) = true := by
      simp [circular_buffer_is_empty, hc]
    have he : circular_buffer_is_empty u.tx_buffer = false := by
      simp [circular_buffer_is_empty, hc]
    by_cases hp : u.read_Tx_fifo_addr_diff.1 ≠ 0
    · obtain ⟨cb', polls', sent', hl, hwf⟩ :=
        ih ({ u.read_Tx_fifo_addr_diff.2 with
              tx_buffer := { u.tx_buffer with
                rd := (u.tx_buffer.rd + 1) % u.tx_buffer.capacity,
                count := u.tx_buffer.count - 1 } }.write_Tx_data
            (u.tx_buffer.storage.getD u.tx_buffer.rd 0))
          (by simp [UartInst.write_Tx_data, hc])
      refine ⟨cb', polls', sent', ?_, ?_⟩
      · rw [uart_isr_tx_loop, if_pos hb, if_pos hp]
        have hr : circular_buffer_read u.read_Tx_fifo_addr_diff.2.tx_buffer =
            .ok (u.tx_buffer.storage.getD u.tx_buffer.rd 0,
              { u.tx_buffer with
                rd := (u.tx_buffer.rd + 1) % u.tx_buffer.capacity,
                count := u.tx_buffer.count - 1 }) := by
          show circular_buffer_read u.tx_buffer = _
          simp [circular_buffer_read, he]
        simp only [hr, except_bind_ok, hl]
        rfl
      · intro h
        obtain ⟨x, cb1, hr, hwf1, -⟩ := circular_buffer_read_ok u.tx_buffer h (by omega)
        have he1 : cb1 = { u.tx_buffer with
            rd := (u.tx_buffer.rd + 1) % u.tx_buffer.capacity,
            count := u.tx_buffer.count - 1 } := by
          simp [circular_buffer_read, he] at hr
          exact hr.2.symm
        exact hwf (by
          show ({ u.tx_buffer with
            rd := (u.tx_buffer.rd + 1) % u.tx_buffer.capacity,
            count := u.tx_buffer.count - 1 } : circular_buffer_t).WF
          rw [← he1]; exact hwf1)
    · exact ⟨u.tx_buffer, u.tx_polls + 1, u.tx_sent,
        by rw [uart_isr_tx_loop, if_pos hb, if_neg hp]; rfl, fun h => h⟩

theorem uart_isr_tx_total (u : UartInst) (ev : List Event) :
    ∃ u' ev', uart_isr_tx u ev = .ok (u', ev') ∧ u'.rx_buffer = u.rx_buffer ∧
      u'.rx_fifo = u.rx_fifo ∧ u'.mRxR = u.mRxR ∧ u'.callbacks = u.callbacks ∧
      (u.tx_buffer.WF → u'.tx_buffer.WF) ∧
      (u.callbacks.tx_callback = none → ev' = ev) := by
  unfold uart_isr_tx
  split
  · obtain ⟨cb', polls', sent', hl, hwf⟩ :=
      uart_isr_tx_loop_total u.read_TxRdy.2.tx_buffer.count u.read_TxRdy.2 rfl
    rw [hl, except_bind_ok]
    refine ⟨_, _, rfl, ?_⟩
    split
    · exact ⟨rfl, rfl, get_14_set_field_13 _ 1, rfl, hwf,
        fun h => by simp [call_callback, UartInst.read_TxRdy, UartInst.read_STAT, h]⟩
    · exact ⟨rfl, rfl, rfl, rfl, hwf,
        fun h => by simp [call_callback, UartInst.read_TxRdy, UartInst.read_STAT, h]⟩
  · exact ⟨_, _, rfl, rfl, rfl, rfl, rfl, fun h => h, fun _ => rfl⟩

theorem uart_isr_rx_ok (u : UartInst) (ev : List Event) (hwf : u.rx_buffer.WF)
    (hfifo : u.rx_fifo.length < 64) (hrx : get_field u.STAT 6 1 ≠ 0) :
    ∃ u', uart_isr_rx u ev = .ok (u', call_callback ev u.callbacks.rx_callback) ∧
      u'.rx_buffer.contents = u.rx_buffer.contents ++
        (u.rx_fifo.take (min u.rx_buffer.free u.rx_fifo.length)).map (fun b => b % 256) ∧
      u'.rx_fifo = u.rx_fifo.drop (min u.rx_buffer.free u.rx_fifo.length) ∧
      u'.rx_buffer.count = u.rx_buffer.count + min u.rx_buffer.free u.rx_fifo.length ∧
      u'.rx_buffer.WF ∧ u'.rx_buffer.capacity = u.rx_buffer.capacity ∧
      (circular_buffer_is_full u'.rx_buffer = true → u'.mRxR = 1) ∧
      (circular_buffer_is_full u'.rx_buffer = false → u'.mRxR = u.mRxR) ∧
      u'.callbacks = u.callbacks ∧ u'.tx_buffer = u.tx_buffer := by
  have hrdy : u.read_RxRdy.1 ≠ 0 := hrx
  obtain ⟨cb', hl, hwf', hcap', hcnt', hcont'⟩ :=
    uart_isr_rx_loop_ok u.read_RxRdy.2.rx_fifo.length u.read_RxRdy.2 hwf (le_refl _) hfifo
  unfold uart_isr_rx
  rw [if_pos hrdy, hl, except_bind_ok]
  by_cases hfull : circular_buffer_is_full cb' = true
  · refine ⟨({ u.read_RxRdy.2 with
        rx_fifo := u.rx_fifo.drop (min u.rx_buffer.free u.rx_fifo.length),
        rx_buffer := cb' } : UartInst).set_mRxR 1, ?_, hcont', rfl, hcnt', hwf', hcap',
      fun _ => get_set_field_14 _ 1, ?_, rfl, rfl⟩
    · simp only [hfull, if_true]; rfl
    · intro h
      exact absurd hfull (by simpa [UartInst.set_mRxR] using h)
  · refine ⟨({ u.read_RxRdy.2 with
        rx_fifo := u.rx_fifo.drop (min u.rx_buffer.free u.rx_fifo.length),
        rx_buffer := cb' } : UartInst), ?_, hcont', rfl, hcnt', hwf', hcap', ?_,
      fun _ => rfl, rfl, rfl⟩
    · simp only [hfull]; rfl
    · intro h
      exact absurd h hfull

/-- C16: for an instance id in {0,1}, an initialised rx ring in any state and
any sequence of bytes pending in the receive FIFO (fewer than 64, the range of
the 6-bit level field), when the ISR runs with `RxRdy` set and no rx callback
registered it returns, having moved exactly `min free pending` bytes from the
FIFO to the rx ring, appended in arrival order after the bytes already held
(which are kept); if the ring is full afterwards `mRxR = 1`, otherwise `mRxR`
is as before the call. -/
theorem uart_isr_rx_fills (s : System) (uart : Nat) (hid : uart ≤ 1)
    (hwf : (s.uart uart).rx_buffer.WF) (hfifo : (s.uart uart).rx_fifo.length < 64)
    (hrx : get_field (s.uart uart).STAT 6 1 ≠ 0)
    (hcb : (s.uart uart).callbacks.rx_callback = none) :
    ∃ s', uart_isr s uart = .ok s' ∧
      (s'.uart uart).rx_buffer.contents = (s.uart uart).rx_buffer.contents ++
        ((s.uart uart).rx_fifo.take
          (min (s.uart uart).rx_buffer.free (s.uart uart).rx_fifo.length)).map
            (fun b => b % 256) ∧
      (s'.uart uart).rx_fifo = (s.uart uart).rx_fifo.drop
        (min (s.uart uart).rx_buffer.free (s.uart uart).rx_fifo.length) ∧
      (s'.uart uart).rx_buffer.count = (s.uart uart).rx_buffer.count +
        min (s.uart uart).rx_buffer.free (s.uart uart).rx_fifo.length ∧
      (s'.uart uart).rx_buffer.WF ∧
      (circular_buffer_is_full (s'.uart uart).rx_buffer = true → (s'.uart uart).mRxR = 1) ∧
      (circular_buffer_is_full (s'.uart uart).rx_buffer = false →
        (s'.uart uart).mRxR = (s.uart uart).mRxR) ∧
      (s'.uart uart).callbacks.rx_callback = none := by
  have hge : ¬ uart ≥ uart_max := by simp only [uart_max]; omega
  have hstat : get_field (s.uart uart).read_STAT.2.STAT 6 1 ≠ 0 := by
    have h : get_field (s.uart uart).read_STAT.2.STAT 6 1 = get_field (s.uart uart).STAT 6 1 := by
      simp only [UartInst.read_STAT, get_field]; norm_num; omega
    rw [h]; exact hrx
  obtain ⟨u1, hrun1, hcont, hfi, hcnt, hwf1, -, hfull1, hnfull1, hcbs1, -⟩ :=
    uart_isr_rx_ok (s.uart uart).read_STAT.2 s.events hwf hfifo hstat
  obtain ⟨u2, ev2, hrun2, hrb, hrf, hm, hcbs2, -, -⟩ :=
    uart_isr_tx_total u1 (call_callback s.events (s.uart uart).read_STAT.2.callbacks.rx_callback)
  refine ⟨{ s with events := ev2 }.set_uart uart u2, ?_, ?_, ?_, ?_, ?_, ?_, ?_, ?_⟩
  · unfold uart_isr
    rw [if_neg hge]
    simp only [hrun1, except_bind_ok, hrun2]
  · rw [uart_set_uart, hrb]; exact hcont
  · rw [uart_set_uart, hrf]; exact hfi
  · rw [uart_set_uart, hrb]; exact hcnt
  · rw [uart_set_uart, hrb]; exact hwf1
  · rw [uart_set_uart, hrb, hm]; exact hfull1
  · rw [uart_set_uart, hrb, hm]; exact hnfull1
  · rw [uart_set_uart, hcbs2, hcbs1]; exact hcb

set_option maxRecDepth 100000 in
/-- Witness for C16: three bytes are pending in the receive FIFO of instance 0,
whose rx ring already holds "Hi", and `RxRdy` is raised. -/
theorem uart_isr_rx_fills_witness :
    0 ≤ 1 ∧ (sys_rx_pending.uart 0).rx_buffer.WF ∧
    (sys_rx_pending.uart 0).rx_fifo.length < 64 ∧
    get_field (sys_rx_pending.uart 0).STAT 6 1 ≠ 0 ∧
    (sys_rx_pending.uart 0).callbacks.rx_callback = none ∧
    ∃ s', uart_isr sys_rx_pending 0 = .ok s' ∧
      (s'.uart 0).rx_buffer.contents = (sys_rx_pending.uart 0).rx_buffer.contents ++
        ((sys_rx_pending.uart 0).rx_fifo.take
          (min (sys_rx_pending.uart 0).rx_buffer.free
            (sys_rx_pending.uart 0).rx_fifo.length)).map (fun b => b % 256) ∧
      (s'.uart 0).rx_fifo = (sys_rx_pending.uart 0).rx_fifo.drop
        (min (sys_rx_pending.uart 0).rx_buffer.free (sys_rx_pending.uart 0).rx_fifo.length) ∧
      (s'.uart 0).rx_buffer.count = (sys_rx_pending.uart 0).rx_buffer.count +
        min (sys_rx_pending.uart 0).rx_buffer.free (sys_rx_pending.uart 0).rx_fifo.length ∧
      (s'.uart 0).rx_buffer.WF ∧
      (circular_buffer_is_full (s'.uart 0).rx_buffer = true → (s'.uart 0).mRxR = 1) ∧
      (circular_buffer_is_full (s'.uart 0).rx_buffer = false →
        (s'.uart 0).mRxR = (sys_rx_pending.uart 0).mRxR) ∧
      (s'.uart 0).callbacks.rx_callback = none :=
  ⟨by decide, by decide, by decide, by decide, rfl,
    uart_isr_rx_fills sys_rx_pending 0 (by decide) (by decide) (by decide) (by decide) rfl⟩

/-! ## uart.c : safety of the ring accesses -/

theorem except_bind_error {α β : Type} (e : Fault) (f : α → Except Fault β) :
    ((Except.error e : Except Fault α) >>= f) = .error e := rfl

theorem inv_uart (s : System) (h : s.inv) (uart : Nat) : (s.uart uart).inv := by
  unfold System.uart
  split
  · exact h.1
  · exact h.2

theorem inv_set_uart (s : System) (h : s.inv) (uart : Nat) (u : UartInst) (hu : u.inv) :
    (s.set_uart uart u).inv := by
  unfold System.set_uart
  split
  · exact ⟨hu, h.2⟩
  · exact ⟨h.1, hu⟩

theorem uart_send_inv (s : System) (uart : Nat) (buf : Option (Nat → Nat)) (count : Nat)
    (h : s.inv) :
    ∃ r, uart_send s uart buf count = .ok r ∧ r.1.inv := by
  unfold uart_send
  split
  · exact ⟨_, rfl, h⟩
  · cases buf with
    | none => exact ⟨_, rfl, h⟩
    | some b =>
      simp only [Nat.not_lt_zero, if_false]
      obtain ⟨hrx, htx, hc1, hc2⟩ := inv_uart s h uart
      obtain ⟨cb', hl, hwf', -⟩ := uart_send_loop_ok b count 0 (s.uart uart).tx_buffer htx
      have hl' : uart_send_loop b count 0 ((s.uart uart).set_mTxR 1).tx_buffer =
          .ok (0 + min count (s.uart uart).tx_buffer.free, cb') := hl
      rw [hl', except_bind_ok]
      exact ⟨_, rfl, inv_set_uart s h uart _ ⟨hrx, hwf', hc1, hc2⟩⟩

theorem uart_receive_inv (s : System) (uart : Nat) (buf : Option (Nat → Nat)) (count : Nat)
    (h : s.inv) :
    ∃ r, uart_receive s uart buf count = .ok r ∧ r.1.inv := by
  unfold uart_receive
  split
  · exact ⟨_, rfl, h⟩
  · cases buf with
    | none => exact ⟨_, rfl, h⟩
    | some b =>
      simp only [Nat.not_lt_zero, if_false]
      obtain ⟨hrx, htx, hc1, hc2⟩ := inv_uart s h uart
      obtain ⟨buf', cb', hl, hwf', -⟩ :=
        uart_receive_loop_ok count 0 b (s.uart uart).rx_buffer hrx
      have hl' : uart_receive_loop count 0 b ((s.uart uart).set_mRxR 1).rx_buffer =
          .ok (0 + min count (s.uart uart).rx_buffer.count, buf', cb') := hl
      rw [hl', except_bind_ok]
      exact ⟨_, rfl, inv_set_uart s h uart _ ⟨hwf', htx, hc1, hc2⟩⟩

theorem tx_fifo_wait_cases :
    ∀ (fuel : Nat) (u : UartInst),
      (∃ p, tx_fifo_wait fuel u = .ok { u with tx_polls := p }) ∨
      tx_fifo_wait fuel u = .error .no_progress := by
  intro fuel
  induction fuel with
  | zero => intro u; exact Or.inr rfl
  | succ fuel ih =>
    intro u
    by_cases hp : u.read_Tx_fifo_addr_diff.1 ≠ 0
    · exact Or.inl ⟨u.tx_polls + 1, by rw [tx_fifo_wait, if_pos hp]; rfl⟩
    · rcases ih u.read_Tx_fifo_addr_diff.2 with ⟨p, hp'⟩ | he
      · exact Or.inl ⟨p, by rw [tx_fifo_wait, if_neg hp, hp']; rfl⟩
      · exact Or.inr (by rw [tx_fifo_wait, if_neg hp, he])

theorem uart_send_byte_drain_cases (fuel : Nat) :
    ∀ (n : Nat) (u : UartInst), u.tx_buffer.WF → u.tx_buffer.count = n →
      (∃ cb' p sent, uart_send_byte_drain fuel n u =
          .ok { u with tx_polls := p, tx_sent := sent, tx_buffer := cb' } ∧ cb'.WF) ∨
      uart_send_byte_drain fuel n u = .error .no_progress := by
  intro n
  induction n with
  | zero =>
    intro u h hc
    exact Or.inl ⟨u.tx_buffer, u.tx_polls, u.tx_sent,
      by simp [uart_send_byte_drain, circular_buffer_is_empty, hc], h⟩
  | succ n ih =>
    intro u h hc
    have hb : (!circular_buffer_is_empty u.tx_buffer) = true := by
      simp [circular_buffer_is_empty, hc]
    rcases tx_fifo_wait_cases fuel u with ⟨p, hw⟩ | he
    · obtain ⟨x, cb1, hr, hwf1, -, hcnt1, -⟩ :=
        circular_buffer_read_ok u.tx_buffer h (by omega)
      have hr' : circular_buffer_read ({ u with tx_polls := p } : UartInst).tx_buffer =
          .ok (x, cb1) := hr
      rcases ih (UartInst.write_Tx_data
            { ({ u with tx_polls := p } : UartInst) with tx_buffer := cb1 } x)
          hwf1 (by simp [UartInst.write_Tx_data, hcnt1, hc]) with ⟨cb', p', sent, hl, hwf'⟩ | he
      · refine Or.inl ⟨cb', p', sent, ?_, hwf'⟩
        rw [uart_send_byte_drain, if_pos hb, hw, except_bind_ok]
        simp only [hr', except_bind_ok, hl]
        rfl
      · refine Or.inr ?_
        rw [uart_send_byte_drain, if_pos hb, hw, except_bind_ok]
        simp only [hr', except_bind_ok, he]
    · exact Or.inr (by rw [uart_send_byte_drain, if_pos hb, he, except_bind_error])

theorem uart_send_byte_inv (fuel : Nat) (s : System) (uart c : Nat) (h : s.inv)
    (hid : uart ≤ 1) :
    (∃ s', uart_send_byte fuel s uart c = .ok s' ∧ s'.inv) ∨
    uart_send_byte fuel s uart c = .error .no_progress := by
  have hge : ¬ uart ≥ uart_max := by simp only [uart_max]; omega
  obtain ⟨hrx, htx, hc1, hc2⟩ := inv_uart s h uart
  unfold uart_send_byte
  rw [if_neg hge]
  rcases uart_send_byte_drain_cases fuel ((s.uart uart).set_mTxR 1).tx_buffer.count
      ((s.uart uart).set_mTxR 1) htx rfl with ⟨cb', p, sent, hd, hwf'⟩ | he
  · simp only [hd, except_bind_ok]
    rcases tx_fifo_wait_cases fuel
        ({ (s.uart uart).set_mTxR 1 with tx_polls := p, tx_sent := sent, tx_buffer := cb' })
      with ⟨p', hw⟩ | he
    · rw [hw, except_bind_ok]
      exact Or.inl ⟨_, rfl, inv_set_uart s h uart _ ⟨hrx, hwf', hc1, hc2⟩⟩
    · rw [he, except_bind_error]
      exact Or.inr rfl
  · simp only [he, except_bind_error]
    first | exact Or.inr rfl | exact Or.inr trivial

theorem uart_receive_byte_inv (s : System) (uart : Nat) (h : s.inv) (hid : uart ≤ 1) :
    (∃ r, uart_receive_byte s uart = .ok r ∧ r.1.inv) ∨
    uart_receive_byte s uart = .error .no_progress := by
  have hge : ¬ uart ≥ uart_max := by simp only [uart_max]; omega
  obtain ⟨hrx, htx, hc1, hc2⟩ := inv_uart s h uart
  unfold uart_receive_byte
  rw [if_neg hge]
  by_cases hb : (!circular_buffer_is_empty ((s.uart uart).set_mRxR 1).rx_buffer) = true
  · have hpos : 0 < (s.uart uart).rx_buffer.count := by
      have : (s.uart uart).rx_buffer.count ≠ 0 := by
        simpa [circular_buffer_is_empty, UartInst.set_mRxR] using hb
      omega
    obtain ⟨x, cb1, hr, hwf1, -⟩ := circular_buffer_read_ok (s.uart uart).rx_buffer hrx hpos
    have hr' : circular_buffer_read ((s.uart uart).set_mRxR 1).rx_buffer = .ok (x, cb1) := hr
    simp only [hb, if_true, hr', except_bind_ok]
    exact Or.inl ⟨_, rfl, inv_set_uart s h uart _ ⟨hwf1, htx, hc1, hc2⟩⟩
  · simp only [hb]
    by_cases hd : ((s.uart uart).set_mRxR 1).Rx_fifo_addr_diff = 0
    · simp only [hd, if_true]
      exact Or.inr rfl
    · simp only [hd, if_false]
      exact Or.inl ⟨_, rfl, inv_set_uart s h uart _ ⟨hrx, htx, hc1, hc2⟩⟩

theorem uart_isr_rx_loop_wf :
    ∀ (n : Nat) (u : UartInst), u.rx_fifo.length ≤ n →
      ∃ fifo' cb', uart_isr_rx_loop n u = .ok { u with rx_fifo := fifo', rx_buffer := cb' } ∧
        (u.rx_buffer.WF → cb'.WF) := by
  intro n
  induction n with
  | zero =>
    intro u h
    have h0 : u.Rx_fifo_addr_diff = 0 := by
      simp only [UartInst.Rx_fifo_addr_diff]; omega
    exact ⟨u.rx_fifo, u.rx_buffer, by simp [uart_isr_rx_loop, h0], fun hw => hw⟩
  | succ n ih =>
    intro u h
    by_cases hc : (!circular_buffer_is_full u.rx_buffer) = true ∧ u.Rx_fifo_addr_diff ≠ 0
    · have hfull : circular_buffer_is_full u.rx_buffer = false := by simpa using hc.1
      have hlen : u.rx_fifo.tail.length ≤ n := by
        simp only [List.length_tail]; omega
      obtain ⟨fifo', cb', hl, hwf⟩ := ih { u.read_Rx_data.2 with
        rx_buffer := { u.rx_buffer with
          storage := u.rx_buffer.storage.set u.rx_buffer.wr (u.read_Rx_data.1 % 256)
          wr := (u.rx_buffer.wr + 1) % u.rx_buffer.capacity
          count := u.rx_buffer.count + 1 } } hlen
      refine ⟨fifo', cb', ?_, ?_⟩
      · rw [uart_isr_rx_loop, if_pos hc]
        simp only [circular_buffer_write, hfull, Bool.false_eq_true, if_false, except_bind_ok,
          hl]
        rfl
      · intro hw
        have hne : u.rx_buffer.count ≠ u.rx_buffer.capacity := by
          simpa [circular_buffer_is_full] using hfull
        have hlt : u.rx_buffer.count < u.rx_buffer.capacity := lt_of_le_of_ne hw.2.2.2.1 hne
        obtain ⟨cb1, hwr, hwf1, -⟩ :=
          circular_buffer_write_ok u.rx_buffer u.read_Rx_data.1 hw hlt
        have he1 : cb1 = { u.rx_buffer with
            storage := u.rx_buffer.storage.set u.rx_buffer.wr (u.read_Rx_data.1 % 256)
            wr := (u.rx_buffer.wr + 1) % u.rx_buffer.capacity
            count := u.rx_buffer.count + 1 } := by
          simp [circular_buffer_write, hfull] at hwr
          exact hwr.symm
        exact hwf (by
          show ({ u.rx_buffer with
            storage := u.rx_buffer.storage.set u.rx_buffer.wr (u.read_Rx_data.1 % 256)
            wr := (u.rx_buffer.wr + 1) % u.rx_buffer.capacity
            count := u.rx_buffer.count + 1 } : circular_buffer_t).WF
          rw [← he1]; exact hwf1)
    · exact ⟨u.rx_fifo, u.rx_buffer, by rw [uart_isr_rx_loop, if_neg hc], fun hw => hw⟩

theorem uart_isr_rx_total (u : UartInst) (ev : List Event) :
    ∃ u' ev', uart_isr_rx u ev = .ok (u', ev') ∧ u'.tx_buffer = u.tx_buffer ∧
      u'.callbacks = u.callbacks ∧ (u.rx_buffer.WF → u'.rx_buffer.WF) := by
  unfold uart_isr_rx
  split
  · obtain ⟨fifo', cb', hl, hwf⟩ := uart_isr_rx_loop_wf u.read_RxRdy.2.rx_fifo.length
      u.read_RxRdy.2 (le_refl _)
    rw [hl, except_bind_ok]
    refine ⟨_, _, rfl, ?_⟩
    split <;> exact ⟨rfl, rfl, hwf⟩
  · exact ⟨_, _, rfl, rfl, rfl, fun h => h⟩

theorem uart_isr_inv (s : System) (uart : Nat) (h : s.inv) (hid : uart ≤ 1) :
    ∃ s', uart_isr s uart = .ok s' ∧ s'.inv := by
  have hge : ¬ uart ≥ uart_max := by simp only [uart_max]; omega
  obtain ⟨hrx, htx, hc1, hc2⟩ := inv_uart s h uart
  obtain ⟨u1, ev1, hrun1, htb1, hcb1, hwf1⟩ :=
    uart_isr_rx_total (s.uart uart).read_STAT.2 s.events
  obtain ⟨u2, ev2, hrun2, hrb2, -, -, hcb2, hwf2, -⟩ := uart_isr_tx_total u1 ev1
  have hsi : ({ s with events := ev2 } : System).inv := h
  refine ⟨{ s with events := ev2 }.set_uart uart u2, ?_,
    inv_set_uart _ hsi uart u2 ⟨?_, ?_, ?_, ?_⟩⟩
  · unfold uart_isr
    rw [if_neg hge]
    simp only [hrun1, except_bind_ok, hrun2]
  · rw [hrb2]; exact hwf1 hrx
  · exact hwf2 (by rw [htb1]; exact htx)
  · rw [hcb2, hcb1]; exact hc1
  · rw [hcb2, hcb1]; exact hc2

theorem driver_step_safe (s : System) (c : DriverCall) (h : s.inv) (hid : c.uart ≤ 1) :
    (∃ s', driver_step s c = .ok s' ∧ s'.inv) ∨
    (driver_step s c = .error .no_progress ∧ c.blocking = true) := by
  cases c with
  | send_byte fuel uart ch =>
    rcases uart_send_byte_inv fuel s uart ch h hid with ⟨s', hs, hi⟩ | he
    · exact Or.inl ⟨s', hs, hi⟩
    · exact Or.inr ⟨he, rfl⟩
  | receive_byte uart =>
    rcases uart_receive_byte_inv s uart h hid with ⟨r, hs, hi⟩ | he
    · exact Or.inl ⟨r.1, by simp only [driver_step, hs], hi⟩
    · exact Or.inr ⟨by simp only [driver_step, he], rfl⟩
  | send uart buf count =>
    obtain ⟨r, hs, hi⟩ := uart_send_inv s uart buf count h
    exact Or.inl ⟨r.1, by simp only [driver_step, hs], hi⟩
  | receive uart buf count =>
    obtain ⟨r, hs, hi⟩ := uart_receive_inv s uart buf count h
    exact Or.inl ⟨r.1, by simp only [driver_step, hs], hi⟩
  | isr uart =>
    obtain ⟨s', hs, hi⟩ := uart_isr_inv s uart h hid
    exact Or.inl ⟨s', hs, hi⟩

theorem driver_run_cases :
    ∀ (calls : List DriverCall) (s : System), s.inv → (∀ c ∈ calls, c.uart ≤ 1) →
      (∃ s', driver_run s calls = .ok s' ∧ s'.inv) ∨
      (driver_run s calls = .error .no_progress ∧ ∃ c ∈ calls, c.blocking = true) := by
  intro calls
  induction calls with
  | nil =>
    intro s h _
    exact Or.inl ⟨s, rfl, h⟩
  | cons c cs ih =>
    intro s h hid
    have hc : c.uart ≤ 1 := hid c (List.mem_cons_self c cs)
    have hcs : ∀ c' ∈ cs, c'.uart ≤ 1 := fun c' hc' => hid c' (List.mem_cons_of_mem c hc')
    rcases driver_step_safe s c h hc with ⟨s1, hs1, hi1⟩ | ⟨he, hb⟩
    · rcases ih s1 hi1 hcs with ⟨s', hs', hi'⟩ | ⟨he, c', hc', hb⟩
      · exact Or.inl ⟨s', by simp only [driver_run, hs1, hs'], hi'⟩
      · exact Or.inr ⟨by simp only [driver_run, hs1, he], c', List.mem_cons_of_mem c hc', hb⟩
    · exact Or.inr ⟨by simp only [driver_run, he], c, List.mem_cons_self c cs, hb⟩

/-- C17: start from a state in which the rings of both instances satisfy the
ring invariant and no callback is registered, and run any sequence of
`uart_send_byte`, `uart_receive_byte`, `uart_send`, `uart_receive` and ISR
calls on instance ids in {0,1}.  `circular_buffer_write` yields
`Fault.undefined` exactly on a full ring and `circular_buffer_read` exactly on
an empty ring, and the run never yields `Fault.undefined`: no write is made on
a full ring and no read on an empty ring.  Whenever the run returns, both
rings of both instances again satisfy the invariant, so every occupancy is
within `0..capacity`; a run without blocking calls always returns, and a run
that does not return stopped in a busy-wait of a blocking call. -/
theorem driver_run_ring_safe (s : System) (calls : List DriverCall) (hinv : s.inv)
    (hid : ∀ c ∈ calls, c.uart ≤ 1) :
    (∀ cb b, circular_buffer_write cb b = .error .undefined ↔
      circular_buffer_is_full cb = true) ∧
    (∀ cb, circular_buffer_read cb = .error .undefined ↔
      circular_buffer_is_empty cb = true) ∧
    driver_run s calls ≠ .error .undefined ∧
    (∀ s', driver_run s calls = .ok s' →
      s'.inv ∧
      ∀ id, (s'.uart id).rx_buffer.count ≤ (s'.uart id).rx_buffer.capacity ∧
        (s'.uart id).tx_buffer.count ≤ (s'.uart id).tx_buffer.capacity) ∧
    ((∀ c ∈ calls, c.blocking = false) → ∃ s', driver_run s calls = .ok s') ∧
    ((∃ s', driver_run s calls = .ok s') ∨ driver_run s calls = .error .no_progress) := by
  refine ⟨?_, ?_, ?_, ?_, ?_, ?_⟩
  · intro cb b
    unfold circular_buffer_write
    split
    · rename_i h; simp [h]
    · rename_i h; simp [h]
  · intro cb
    unfold circular_buffer_read
    split
    · rename_i h; simp [h]
    · rename_i h; simp [h]
  · rcases driver_run_cases calls s hinv hid with ⟨s', hs', -⟩ | ⟨he, -⟩
    · rw [hs']; intro h; cases h
    · rw [he]; intro h; cases h
  · intro s' hs
    rcases driver_run_cases calls s hinv hid with ⟨s1, hs1, hi1⟩ | ⟨he, -⟩
    · rw [hs1] at hs
      cases hs
      refine ⟨hi1, fun id => ?_⟩
      obtain ⟨hrx, htx, -, -⟩ := inv_uart _ hi1 id
      exact ⟨hrx.2.2.2.1, htx.2.2.2.1⟩
    · rw [he] at hs; cases hs
  · intro hnb
    rcases driver_run_cases calls s hinv hid with ⟨s1, hs1, -⟩ | ⟨-, c, hc, hb⟩
    · exact ⟨s1, hs1⟩
    · rw [hnb c hc] at hb; cases hb
  · rcases driver_run_cases calls s hinv hid with ⟨s1, hs1, -⟩ | ⟨he, -⟩
    · exact Or.inl ⟨s1, hs1⟩
    · exact Or.inr he

set_option maxRecDepth 100000 in
/-- Witness for C17: the demonstration sequence of calls, started with "Hi" in
the rx ring and "ok" in the tx ring of instance 0. -/
theorem driver_run_ring_safe_witness :
    sys_busy.inv ∧ (∀ c ∈ calls_demo, c.uart ≤ 1) ∧
    ((∀ cb b, circular_buffer_write cb b = .error .undefined ↔
      circular_buffer_is_full cb = true) ∧
    (∀ cb, circular_buffer_read cb = .error .undefined ↔
      circular_buffer_is_empty cb = true) ∧
    driver_run sys_busy calls_demo ≠ .error .undefined ∧
    (∀ s', driver_run sys_busy calls_demo = .ok s' →
      s'.inv ∧
      ∀ id, (s'.uart id).rx_buffer.count ≤ (s'.uart id).rx_buffer.capacity ∧
        (s'.uart id).tx_buffer.count ≤ (s'.uart id).tx_buffer.capacity) ∧
    ((∀ c ∈ calls_demo, c.blocking = false) → ∃ s', driver_run sys_busy calls_demo = .ok s') ∧
    ((∃ s', driver_run sys_busy calls_demo = .ok s') ∨
      driver_run sys_busy calls_demo = .error .no_progress)) :=
  ⟨by decide, by decide,
    driver_run_ring_safe sys_busy calls_demo (by decide) (by decide)⟩

end Econotag
